import Mathlib

/-!
Verification of the retrieval and relevance-ranking core of the repository:
`backend/app/services/rag_service.py` (`RAGService.search`, `RAGService.query`)
and `backend/app/services/demo_video_service.py`
(`DemoVideoService.find_demo_videos` and its helpers).

The vector index (ChromaDB) and the LLM are external collaborators: the
embedding therefore models the post-retrieval computation.  `RAGService.search`
is modelled from the point where the merged candidate list `all_results`
exists (rag_service.py line 206) to the returned `filtered_results`
(line 390), parameterized by the candidate list.  `find_demo_videos` is
modelled from the point where `search_results` has been obtained from
`rag_service.search` (demo_video_service.py line 628), parameterized by that
list.

Python `float` scores are modelled by exact rationals (`Frac` below): every
score produced by the code is a small decimal and the properties at stake are
sign/ordering facts that hold for IEEE floats exactly as they do for exact
rationals (all the code's score updates are single additions/multiplications
of representable decimals).

Python strings are modelled as `List Char`; `dict.get` accesses with a
default are modelled by total record fields holding that default.
-/

/-- Exact rational scores: a numerator and a positive denominator, kept
un-normalized so that all arithmetic is kernel-computable.  `toRat` maps a
`Frac` to the rational it denotes. -/
structure Frac where
  num : ℤ
  den : ℕ+
deriving DecidableEq

namespace Frac

/-- The rational number denoted by a `Frac`. -/
def toRat (a : Frac) : ℚ := (a.num : ℚ) / ((a.den : ℕ) : ℚ)

/-- Embed an integer. -/
def ofInt (n : ℤ) : Frac := ⟨n, 1⟩

/-- Exact addition (denominators multiply; no normalization). -/
def add (a b : Frac) : Frac := ⟨a.num * ((b.den : ℕ) : ℤ) + b.num * ((a.den : ℕ) : ℤ), a.den * b.den⟩

/-- Negation. -/
def neg (a : Frac) : Frac := ⟨-a.num, a.den⟩

/-- Subtraction. -/
def sub (a b : Frac) : Frac := a.add b.neg

/-- Multiplication. -/
def mul (a b : Frac) : Frac := ⟨a.num * b.num, a.den * b.den⟩

/-- Comparison, by cross-multiplication (valid because denominators are
positive). -/
def le (a b : Frac) : Prop := a.num * ((b.den : ℕ) : ℤ) ≤ b.num * ((a.den : ℕ) : ℤ)

/-- Strict comparison. -/
def lt (a b : Frac) : Prop := a.num * ((b.den : ℕ) : ℤ) < b.num * ((a.den : ℕ) : ℤ)

instance decLe : ∀ a b : Frac, Decidable (le a b) := fun a b => by
  unfold le; infer_instance

instance decLt : ∀ a b : Frac, Decidable (lt a b) := fun a b => by
  unfold lt; infer_instance

theorem den_cast_pos (a : Frac) : (0 : ℚ) < ((a.den : ℕ) : ℚ) := by
  exact_mod_cast a.den.pos

theorem den_int_cast_pos (a : Frac) : (0 : ℤ) < ((a.den : ℕ) : ℤ) := by
  exact_mod_cast a.den.pos

theorem le_iff (a b : Frac) : le a b ↔ a.toRat ≤ b.toRat := by
  unfold le toRat
  rw [div_le_div_iff₀ (den_cast_pos a) (den_cast_pos b)]
  constructor
  · intro h; exact_mod_cast h
  · intro h; exact_mod_cast h

theorem lt_iff (a b : Frac) : lt a b ↔ a.toRat < b.toRat := by
  unfold lt toRat
  rw [div_lt_div_iff₀ (den_cast_pos a) (den_cast_pos b)]
  constructor
  · intro h; exact_mod_cast h
  · intro h; exact_mod_cast h

theorem toRat_ofInt (n : ℤ) : (ofInt n).toRat = (n : ℚ) := by
  unfold ofInt toRat
  simp

theorem toRat_add (a b : Frac) : (a.add b).toRat = a.toRat + b.toRat := by
  unfold add toRat
  have ha := den_cast_pos a
  have hb := den_cast_pos b
  field_simp
  try push_cast
  try ring

theorem toRat_neg (a : Frac) : a.neg.toRat = -a.toRat := by
  unfold neg toRat
  try push_cast
  ring

theorem toRat_sub (a b : Frac) : (a.sub b).toRat = a.toRat - b.toRat := by
  unfold sub
  rw [toRat_add, toRat_neg]
  ring

theorem toRat_mul (a b : Frac) : (a.mul b).toRat = a.toRat * b.toRat := by
  unfold mul toRat
  have ha := den_cast_pos a
  have hb := den_cast_pos b
  field_simp
  try push_cast
  try ring

theorem le_total_frac (a b : Frac) : le a b ∨ le b a := by
  rw [le_iff, le_iff]
  exact le_total a.toRat b.toRat

theorem le_trans_frac {a b c : Frac} (h1 : le a b) (h2 : le b c) : le a c := by
  rw [le_iff] at h1 h2 ⊢
  exact h1.trans h2

end Frac

/-- `m / max(n, 1)` as an exact rational: the Python float division used for
term-overlap ratios (`matching_terms / max(len(query_terms), 1)`). -/
def fracRatio (m n : ℕ) : Frac := ⟨(m : ℤ), Nat.toPNat' n⟩

/-- Frequently used decimal literals of the source, as exact rationals. -/
def fq (n : ℤ) (d : ℕ+) : Frac := ⟨n, d⟩

/-! ### Python string primitives, over `List Char` -/

/-- Python strings are modelled as lists of characters. -/
abbrev Str := List Char

/-- Python `str.isspace`-style whitespace, ASCII subset (the characters the
source's queries/filenames can contain). -/
def pyIsSpace (c : Char) : Bool :=
  c = ' ' || c = '\t' || c = '\n' || c = '\x0d' || c = '\x0b' || c = '\x0c'

/-- Python `str.lower()` (ASCII). -/
def pyLower (s : Str) : Str := s.map Char.toLower

/-- Python `str.strip()`: remove leading and trailing whitespace. -/
def pyStrip (s : Str) : Str :=
  ((s.dropWhile pyIsSpace).reverse.dropWhile pyIsSpace).reverse

/-- Helper for `pySplitWs` (accumulates the current word reversed). -/
def splitWsAux (cur : Str) (acc : List Str) : Str → List Str
  | [] => if cur = [] then acc.reverse else (cur.reverse :: acc).reverse
  | c :: rest =>
    if pyIsSpace c then
      if cur = [] then splitWsAux [] acc rest
      else splitWsAux [] (cur.reverse :: acc) rest
    else splitWsAux (c :: cur) acc rest

/-- Python `str.split()` with no argument: split on whitespace runs,
discarding empty fields. -/
def pySplitWs (s : Str) : List Str := splitWsAux [] [] s

/-- Helper for `pySplitOnChar`. -/
def splitOnCharAux (sep : Char) (cur : Str) (acc : List Str) : Str → List Str
  | [] => (cur.reverse :: acc).reverse
  | c :: rest =>
    if c = sep then splitOnCharAux sep [] (cur.reverse :: acc) rest
    else splitOnCharAux sep (c :: cur) acc rest

/-- Python `str.split(sep)` for a one-character separator: keeps empty
fields. -/
def pySplitOnChar (sep : Char) (s : Str) : List Str := splitOnCharAux sep [] [] s

/-- Is `p` a prefix of `s` (case-sensitive)? Python `str.startswith`. -/
def isPfx : Str → Str → Bool
  | [], _ => true
  | _ :: _, [] => false
  | a :: as, b :: bs => a = b && isPfx as bs

/-- Is `p` a prefix of `s`, comparing case-insensitively (used for
`re.IGNORECASE` literals)? -/
def isPfxCI : Str → Str → Bool
  | [], _ => true
  | _ :: _, [] => false
  | a :: as, b :: bs => a.toLower = b.toLower && isPfxCI as bs

/-- Python `needle in haystack` on strings: substring containment. -/
def pyInStr (needle : Str) : Str → Bool
  | [] => isPfx needle []
  | c :: rest => isPfx needle (c :: rest) || pyInStr needle rest

/-- First index at which `needle` occurs in `haystack`, case-insensitively
(`str.find` after both sides were lowered, or an `re.IGNORECASE` search). -/
def pyFindCI (needle : Str) : Str → Option ℕ
  | [] => if isPfxCI needle [] then some 0 else none
  | c :: rest =>
    if isPfxCI needle (c :: rest) then some 0
    else (pyFindCI needle rest).map (· + 1)

/-- Python `str.find` (case-sensitive): first index of `needle`, if any. -/
def pyFind (needle : Str) : Str → Option ℕ
  | [] => if isPfx needle [] then some 0 else none
  | c :: rest =>
    if isPfx needle (c :: rest) then some 0
    else (pyFind needle rest).map (· + 1)

/-- Python `str.replace(a, b)` for one-character patterns (the only uses in
the source: `'-'→' '`, `'_'→' '`, `'.'→' '`, `' '→'-'`). -/
def pyReplaceChar (a b : Char) (s : Str) : Str :=
  s.map (fun c => if c = a then b else c)

/-- Python `' '.join(parts)`. -/
def pyJoinSpace (parts : List Str) : Str := (parts.intersperse [' ']).flatten

/-- Python `' '.join(s.split())`: collapse whitespace runs. -/
def pyNormWs (s : Str) : Str := pyJoinSpace (pySplitWs s)

/-- Keep the first occurrence of each element, preserving order (the effect
of the source's `seen`-set dedup loops; also our model of iterating a Python
`set` built incrementally). -/
def dedupKeep {α : Type} [DecidableEq α] : List α → List α
  | [] => []
  | a :: rest => a :: (dedupKeep rest).filter (fun x => x ≠ a)

theorem dedupKeep_nodup {α : Type} [DecidableEq α] (l : List α) : (dedupKeep l).Nodup := by
  induction l with
  | nil => exact List.nodup_nil
  | cons a rest ih =>
    refine List.nodup_cons.mpr ⟨?_, ih.filter _⟩
    intro hmem
    have := List.of_mem_filter hmem
    simp at this

theorem dedupKeep_sublist {α : Type} [DecidableEq α] (l : List α) : (dedupKeep l).Sublist l := by
  induction l with
  | nil => exact List.Sublist.refl _
  | cons a rest ih =>
    exact (List.filter_sublist _).trans ih |>.cons₂ a

theorem mem_dedupKeep {α : Type} [DecidableEq α] {x : α} {l : List α} :
    x ∈ dedupKeep l ↔ x ∈ l := by
  induction l with
  | nil => simp [dedupKeep]
  | cons a rest ih =>
    by_cases hxa : x = a
    · subst hxa; simp [dedupKeep]
    · simp only [dedupKeep, List.mem_cons, List.mem_filter]
      constructor
      · rintro (h | ⟨h, _⟩)
        · exact Or.inl h
        · exact Or.inr (ih.mp h)
      · rintro (h | h)
        · exact Or.inl h
        · exact Or.inr ⟨ih.mpr h, by simpa using hxa⟩

/-! ### A small matcher for the source's regular expressions

The regexes used by `demo_video_service.py` are unions of literal words
separated by whitespace, with optional groups, literal alternations, and
`^`/`$` anchors.  We compile each into the list of its alternation-free
expansions (in the backtracking order of Python's `re`) and match each
expansion greedily; this is equivalent for these patterns because after a
whitespace item the continuation never starts with whitespace. -/

/-- One item of an alternation-free expansion. -/
inductive BItem where
  | lit (s : Str)
  | ws1
  | ws0
  | eos

/-- One item of a source regex (ahead of expansion): a literal, `\s+`,
`\s*`, an optional group given as its alternation-free alternatives in
backtracking order (e.g. `(re:?\s*)?` is `optAlts [[re, :, \s*], [re, \s*]]`),
a plain alternation of literals `(a|b|..)`, or the `$` anchor. -/
inductive RItem where
  | lit (s : Str)
  | ws1
  | ws0
  | optAlts (gs : List (List BItem))
  | alts (ss : List Str)
  | eos

/-- All alternation-free expansions of a pattern, in Python `re` backtracking
order (a greedy optional group is tried present-first, its alternatives in
order, then absent; a plain alternation in written order). -/
def expand : List RItem → List (List BItem)
  | [] => [[]]
  | .lit s :: rest => (expand rest).map (.lit s :: ·)
  | .ws1 :: rest => (expand rest).map (.ws1 :: ·)
  | .ws0 :: rest => (expand rest).map (.ws0 :: ·)
  | .optAlts gs :: rest => gs.flatMap (fun g => (expand rest).map (g ++ ·)) ++ expand rest
  | .alts ss :: rest => ss.flatMap (fun s => (expand rest).map (.lit s :: ·))
  | .eos :: rest => (expand rest).map (.eos :: ·)

/-- Greedy matching of one alternation-free expansion against a prefix of
`s` (case-insensitive literals, `re.IGNORECASE`); returns the remainder of
the string after the match. -/
def bmatch : List BItem → Str → Option Str
  | [], s => some s
  | .lit l :: rest, s => if isPfxCI l s then bmatch rest (s.drop l.length) else none
  | .ws1 :: rest, s =>
    let run := s.takeWhile pyIsSpace
    if run = [] then none else bmatch rest (s.drop run.length)
  | .ws0 :: rest, s => bmatch rest (s.drop (s.takeWhile pyIsSpace).length)
  | .eos :: rest, s => if s = [] then bmatch rest s else none

/-- Try the expansions in order at the current position; first success
wins (Python backtracking order). -/
def tryExps (exps : List (List BItem)) (s : Str) : Option Str :=
  match exps with
  | [] => none
  | e :: more =>
    match bmatch e s with
    | some r => some r
    | none => tryExps more s

/-- Fuel-indexed scan for `reSubScan` (every step strictly shrinks the
string, so `length + 1` fuel always suffices). -/
def reSubScanAux (exps : List (List BItem)) : ℕ → Str → Str
  | 0, s => s
  | _ + 1, [] => []
  | fuel + 1, c :: rest =>
    match tryExps exps (c :: rest) with
    | some r =>
      if r.length < rest.length + 1 then reSubScanAux exps fuel r
      else c :: reSubScanAux exps fuel rest
    | none => c :: reSubScanAux exps fuel rest

/-- `re.sub(pattern, '', s)` for an unanchored pattern: scan left to right,
delete each non-overlapping match, continue after it. -/
def reSubScan (exps : List (List BItem)) (s : Str) : Str :=
  reSubScanAux exps (s.length + 1) s

/-- `re.sub('^pattern...', '', s)`: the pattern is anchored at the start, so
at most one deletion happens, at position 0. -/
def reSubStart (exps : List (List BItem)) (s : Str) : Str :=
  match tryExps exps s with
  | some r => r
  | none => s

/-- Apply one source regex (written with `RItem`s) as `re.sub(p, '', s)`.
`anchored` is true for patterns starting with `^`. -/
def reSub (anchored : Bool) (items : List RItem) (s : Str) : Str :=
  if anchored then reSubStart (expand items) s else reSubScan (expand items) s

/-! ### `RAGService.search`: data model

Chunk metadata as consumed by `search` (rag_service.py lines 206-299).
Every field read with `metadata.get(k, default)` is modelled as a total
field whose value is that default when the key is missing; `document_id`
and `owner_id` are read with default `None`, hence `Option`. -/

/-- Metadata of one stored chunk. -/
structure Metadata where
  document_id : Option ℕ
  filename : Str
  title : Str
  tags : Str
  is_public : Bool
  allowed_roles : Str
  owner_id : Option ℤ
deriving DecidableEq

/-- A raw retrieval hit: page content plus metadata (the langchain
`Document`). -/
structure Chunk where
  content : Str
  metadata : Metadata
deriving DecidableEq

/-- One entry of the list returned by `search`: the dict
`{content, score, original_score, metadata}` built at rag_service.py
line 294. -/
structure SearchResult where
  content : Str
  score : Frac
  original_score : Frac
  metadata : Metadata
deriving DecidableEq

/-- The dedup key `f"{doc_id}_{doc.page_content[:50]}"` (line 216), as the
pair it injectively encodes. -/
def dedupKey (docId : Option ℕ) (content : Str) : Option ℕ × Str :=
  (docId, content.take 50)

/-- Filename term-overlap boost (rag_service.py lines 227-245): up to
`-0.4` when at least 50% of the query terms occur in the filename,
`-0.25 * ratio` otherwise, overridden by `-0.5` when the query has at least
two terms and all of them occur as whole words of the filename. -/
def filenameMatchScore (queryTerms : List Str) (filename : Str) : Frac :=
  if filename = [] then Frac.ofInt 0
  else
    let matching := (queryTerms.filter (fun t => pyInStr t filename)).length
    let base :=
      if matching > 0 then
        if Frac.le (fq 1 2) (fracRatio matching queryTerms.length) then fq (-4) 10
        else (fq (-25) 100).mul (fracRatio matching queryTerms.length)
      else Frac.ofInt 0
    let filenameWords := pySplitWs filename
    if queryTerms.length ≥ 2 ∧ queryTerms.all (fun t => filenameWords.contains t) then
      fq (-5) 10
    else base

/-- Title term-overlap boost (lines 247-260): `-0.35` strong / `-0.2*ratio`
partial, `-0.45` for an all-whole-words match of a multi-term query. -/
def titleMatchScore (queryTerms : List Str) (title : Str) : Frac :=
  if title = [] then Frac.ofInt 0
  else
    let matching := (queryTerms.filter (fun t => pyInStr t title)).length
    let base :=
      if matching > 0 then
        if Frac.le (fq 1 2) (fracRatio matching queryTerms.length) then fq (-35) 100
        else (fq (-2) 10).mul (fracRatio matching queryTerms.length)
      else Frac.ofInt 0
    let titleWords := pySplitWs title
    if queryTerms.length ≥ 2 ∧ queryTerms.all (fun t => titleWords.contains t) then
      fq (-45) 100
    else base

/-- Tag term-overlap boost (lines 262-274): comma-separated tag list,
`-0.3` strong / `-0.15*ratio` partial. -/
def tagMatchScore (queryTerms : List Str) (tags : Str) : Frac :=
  if tags = [] then Frac.ofInt 0
  else
    let tagList := (pySplitOnChar ',' tags).map (fun t => pyLower (pyStrip t))
    let matching := (queryTerms.filter (fun t => tagList.any (fun tag => pyInStr t tag))).length
    if matching > 0 then
      if Frac.le (fq 1 2) (fracRatio matching queryTerms.length) then fq (-3) 10
      else (fq (-15) 100).mul (fracRatio matching queryTerms.length)
    else Frac.ofInt 0

/-- The result dict built at rag_service.py line 279/294 for one surviving
chunk: boosted score = raw score plus the three (non-positive) boost terms,
raw score retained in `original_score`. -/
def boostResult (queryTerms : List Str) (c : Chunk) (s : Frac) : SearchResult :=
  { content := c.content,
    score := ((s.add (filenameMatchScore queryTerms (pyLower c.metadata.filename))).add
      (titleMatchScore queryTerms (pyLower c.metadata.title))).add
      (tagMatchScore queryTerms (pyLower c.metadata.tags)),
    original_score := s,
    metadata := c.metadata }

/-- The dedup-and-boost loop (lines 207-279): first occurrence of each
`(document_id, content[:50])` key wins. -/
def dedupBoostAux (queryTerms : List Str) (seen : List (Option ℕ × Str)) :
    List (Chunk × Frac) → List SearchResult
  | [] => []
  | (c, s) :: rest =>
    let key := dedupKey c.metadata.document_id c.content
    if key ∈ seen then dedupBoostAux queryTerms seen rest
    else boostResult queryTerms c s :: dedupBoostAux queryTerms (key :: seen) rest

/-- Sort ascending by (boosted) score: Python's stable `list.sort(key=score)`. -/
def resLE (a b : SearchResult) : Prop := Frac.le a.score b.score

instance resLE.dec : DecidableRel resLE := fun a b => by
  unfold resLE; infer_instance

instance resLE.total : IsTotal SearchResult resLE :=
  ⟨fun a b => Frac.le_total_frac a.score b.score⟩

instance resLE.trans : IsTrans SearchResult resLE :=
  ⟨fun _ _ _ h1 h2 => Frac.le_trans_frac h1 h2⟩

/-- `results.sort(key=lambda x: x["score"])`. -/
def sortByScore (l : List SearchResult) : List SearchResult :=
  List.insertionSort resLE l

/-- Python truthiness of the `owner_id` metadata value. -/
def ownerTruthy : Option ℤ → Bool
  | none => false
  | some n => n ≠ 0

/-- The permission check of lines 288-292: `is_public`, or `user_role` a
member of `allowed_roles.split(",")`, or a truthy `owner_id` (the code does
not compare `owner_id` against any requesting user; its comment defers the
owner check to the API level). -/
def permissionPass (userRole : Str) (m : Metadata) : Bool :=
  m.is_public || (pySplitOnChar ',' m.allowed_roles).contains userRole
    || ownerTruthy m.owner_id

/-- Membership of a chunk's `document_id` in `previously_used_docs`. -/
def inPrev (prevDocs : List ℕ) : Option ℕ → Bool
  | none => false
  | some n => prevDocs.contains n

/-- The conversation-continuity boost of line 326: a flat `-0.3` for chunks
of previously used documents. -/
def convAdjust (prevDocs : List ℕ) (r : SearchResult) : SearchResult :=
  if inPrev prevDocs r.metadata.document_id then { r with score := r.score.sub (fq 3 10) }
  else r

/-- Was a document boosted (lines 319-328)?  Either some of its chunks had
`original_score - score > 0.01` before the conversation adjustment, or it is
a previously used document. -/
def docBoosted (prevDocs : List ℕ) (pool0 : List SearchResult) (d : Option ℕ) : Bool :=
  (pool0.filter (fun r => r.metadata.document_id = d)).any
    (fun r => decide (Frac.lt (fq 1 100) (r.original_score.sub r.score)))
  || inPrev prevDocs d

/-- `for chunk in xs: if len(acc) < limit: acc.append(chunk)` — appending is
only possible while the budget lasts, so the loop equals appending
`xs.take (limit - len acc)`. -/
def appendUpTo (limit : ℕ) (acc xs : List SearchResult) : List SearchResult :=
  acc ++ xs.take (limit - acc.length)

/-- `document_chunks[doc_id]`: the chunks of one document, in pool order. -/
def groupOf (pool : List SearchResult) (d : Option ℕ) : List SearchResult :=
  pool.filter (fun r => r.metadata.document_id = d)

/-- FIRST PRIORITY (lines 332-343): every chunk of every boosted document,
each document's list sorted, the union sorted again, appended up to the
budget. -/
def pass1 (limit : ℕ) (pool : List SearchResult) (boostedDocs : List (Option ℕ)) :
    List SearchResult :=
  appendUpTo limit []
    (sortByScore ((boostedDocs.map (fun d => sortByScore (groupOf pool d))).flatten))

/-- SECOND PRIORITY (lines 345-355): if budget remains, up to
`chunks_per_doc = max(1, remaining // #nonBoostedDocs)` chunks from each
non-boosted document. -/
def pass2 (limit : ℕ) (pool : List SearchResult) (nonBoosted : List (Option ℕ))
    (sel1 : List SearchResult) : List SearchResult :=
  if nonBoosted ≠ [] ∧ sel1.length < limit then
    let cpd := max 1 ((limit - sel1.length) / max nonBoosted.length 1)
    nonBoosted.foldl (fun acc d => appendUpTo limit acc ((sortByScore (groupOf pool d)).take cpd))
      sel1
  else sel1

/-- THIRD PRIORITY (lines 357-370): if budget still remains, backfill from
all chunks sorted by score, skipping content prefixes already selected. -/
def pass3 (limit : ℕ) (pool : List SearchResult) (docIds : List (Option ℕ))
    (sel2 : List SearchResult) : List SearchResult :=
  if sel2.length < limit then
    let added := sel2.map (fun r => r.content.take 50)
    appendUpTo limit sel2
      (sortByScore (((docIds.map (fun d => sortByScore (groupOf pool d))).flatten).filter
        (fun r => ! added.contains (r.content.take 50))))
  else sel2

/-- The three-pass diversification selection (lines 330-373) followed by the
final sort (line 373): boosted documents first, then up to
`chunks_per_doc` chunks of each non-boosted document, then backfill by score
skipping already-selected content prefixes. -/
def diversify (limit : ℕ) (prevDocs : List ℕ) (pool0 : List SearchResult) :
    List SearchResult :=
  let pool := pool0.map (convAdjust prevDocs)
  let docIds := dedupKeep (pool.map (fun r => r.metadata.document_id))
  let boostedDocs := docIds.filter (fun d => docBoosted prevDocs pool0 d)
  let nonBoosted := docIds.filter (fun d => ! docBoosted prevDocs pool0 d)
  sortByScore (pass3 limit pool docIds
    (pass2 limit pool nonBoosted (pass1 limit pool boostedDocs)))

/-- `RAGService.search` from the merged candidate list `all_results`
(line 206) to the returned `filtered_results` (line 390): normalization of
the query into terms, dedup + document-level boosting, sort, permission
filter, conversation boost, diversification, final sort. -/
def searchFilter (allResults : List (Chunk × Frac)) (query userRole : Str)
    (limit : ℕ) (prevDocs : List ℕ) : List SearchResult :=
  let normalizedQuery := pyReplaceChar '-' ' ' (pyLower query)
  let queryLower := pyLower normalizedQuery
  let queryTerms := dedupKeep ((pySplitWs queryLower).filter (fun t => t.length > 3))
  let unique := dedupBoostAux queryTerms [] allResults
  let sorted1 := sortByScore unique
  let pool0 := sorted1.filter (fun r => permissionPass userRole r.metadata)
  diversify limit prevDocs pool0

/-! ### Facts about the boosts and the selection pipeline -/

theorem fq_toRat (n : ℤ) (d : ℕ+) : (fq n d).toRat = (n : ℚ) / ((d : ℕ) : ℚ) := rfl

theorem fracRatio_toRat_nonneg (m n : ℕ) : 0 ≤ (fracRatio m n).toRat := by
  unfold fracRatio Frac.toRat
  positivity

theorem filenameMatchScore_nonpos (qt : List Str) (fn : Str) :
    (filenameMatchScore qt fn).toRat ≤ 0 := by
  simp only [filenameMatchScore]
  split_ifs <;>
    simp only [Frac.toRat_ofInt, fq_toRat, Frac.toRat_mul] <;>
    first
    | exact mul_nonpos_of_nonpos_of_nonneg (by norm_num)
        (fracRatio_toRat_nonneg _ _)
    | norm_num

theorem titleMatchScore_nonpos (qt : List Str) (t : Str) :
    (titleMatchScore qt t).toRat ≤ 0 := by
  simp only [titleMatchScore]
  split_ifs <;>
    simp only [Frac.toRat_ofInt, fq_toRat, Frac.toRat_mul] <;>
    first
    | exact mul_nonpos_of_nonpos_of_nonneg (by norm_num)
        (fracRatio_toRat_nonneg _ _)
    | norm_num

theorem tagMatchScore_nonpos (qt : List Str) (g : Str) :
    (tagMatchScore qt g).toRat ≤ 0 := by
  simp only [tagMatchScore]
  split_ifs <;>
    simp only [Frac.toRat_ofInt, fq_toRat, Frac.toRat_mul] <;>
    first
    | exact mul_nonpos_of_nonpos_of_nonneg (by norm_num)
        (fracRatio_toRat_nonneg _ _)
    | norm_num

theorem dedupBoost_score_le {qt : List Str} {seen : List (Option ℕ × Str)}
    {l : List (Chunk × Frac)} {r : SearchResult} (h : r ∈ dedupBoostAux qt seen l) :
    r.score.toRat ≤ r.original_score.toRat := by
  induction l generalizing seen with
  | nil => simp [dedupBoostAux] at h
  | cons cs rest ih =>
    obtain ⟨c, s⟩ := cs
    simp only [dedupBoostAux] at h
    split_ifs at h with hseen
    · exact ih h
    · rcases List.mem_cons.mp h with heq | htail
      · subst heq
        simp only [boostResult, Frac.toRat_add]
        have h1 := filenameMatchScore_nonpos qt (pyLower c.metadata.filename)
        have h2 := titleMatchScore_nonpos qt (pyLower c.metadata.title)
        have h3 := tagMatchScore_nonpos qt (pyLower c.metadata.tags)
        linarith
      · exact ih htail

theorem convAdjust_metadata (prev : List ℕ) (r : SearchResult) :
    (convAdjust prev r).metadata = r.metadata := by
  unfold convAdjust
  split_ifs <;> rfl

theorem convAdjust_content (prev : List ℕ) (r : SearchResult) :
    (convAdjust prev r).content = r.content := by
  unfold convAdjust
  split_ifs <;> rfl

theorem convAdjust_original (prev : List ℕ) (r : SearchResult) :
    (convAdjust prev r).original_score = r.original_score := by
  unfold convAdjust
  split_ifs <;> rfl

theorem convAdjust_score_le (prev : List ℕ) (r : SearchResult) :
    (convAdjust prev r).score.toRat ≤ r.score.toRat := by
  unfold convAdjust
  split_ifs
  · simp only [Frac.toRat_sub, fq_toRat]
    norm_num
  · exact le_refl _

theorem mem_sortByScore {r : SearchResult} {l : List SearchResult} :
    r ∈ sortByScore l ↔ r ∈ l := by
  unfold sortByScore
  exact List.mem_insertionSort resLE

theorem mem_of_mem_appendUpTo {limit : ℕ} {acc xs : List SearchResult} {r : SearchResult}
    (h : r ∈ appendUpTo limit acc xs) : r ∈ acc ∨ r ∈ xs := by
  unfold appendUpTo at h
  rcases List.mem_append.mp h with h1 | h2
  · exact Or.inl h1
  · exact Or.inr (List.take_subset _ _ h2)

theorem mem_fold_appendUpTo {limit : ℕ} {f : Option ℕ → List SearchResult}
    {ds : List (Option ℕ)} {acc : List SearchResult} {r : SearchResult}
    (h : r ∈ ds.foldl (fun a d => appendUpTo limit a (f d)) acc) :
    r ∈ acc ∨ ∃ d ∈ ds, r ∈ f d := by
  induction ds generalizing acc with
  | nil => exact Or.inl h
  | cons d rest ih =>
    rcases ih h with hacc | ⟨d2, hd2, hr⟩
    · rcases mem_of_mem_appendUpTo hacc with h1 | h2
      · exact Or.inl h1
      · exact Or.inr ⟨d, List.mem_cons_self d rest, h2⟩
    · exact Or.inr ⟨d2, List.mem_cons_of_mem d hd2, hr⟩

theorem mem_flatten_groups {pool : List SearchResult} {ds : List (Option ℕ)}
    {r : SearchResult}
    (h : r ∈ (ds.map (fun d => sortByScore (groupOf pool d))).flatten) : r ∈ pool := by
  rcases List.mem_flatten.mp h with ⟨seg, hseg, hxseg⟩
  rcases List.mem_map.mp hseg with ⟨d, _, hdmap⟩
  exact List.mem_of_mem_filter (mem_sortByScore.mp (hdmap ▸ hxseg))

theorem mem_pass1 {limit : ℕ} {pool : List SearchResult} {bd : List (Option ℕ)}
    {r : SearchResult} (h : r ∈ pass1 limit pool bd) : r ∈ pool := by
  unfold pass1 at h
  rcases mem_of_mem_appendUpTo h with h1 | h2
  · simp at h1
  · exact mem_flatten_groups (mem_sortByScore.mp h2)

theorem mem_pass2 {limit : ℕ} {pool : List SearchResult} {nb : List (Option ℕ)}
    {sel1 : List SearchResult} {r : SearchResult}
    (h : r ∈ pass2 limit pool nb sel1) : r ∈ sel1 ∨ r ∈ pool := by
  unfold pass2 at h
  split_ifs at h
  · rcases mem_fold_appendUpTo h with h1 | ⟨d, _, h2⟩
    · exact Or.inl h1
    · exact Or.inr (List.mem_of_mem_filter (mem_sortByScore.mp (List.take_subset _ _ h2)))
  · exact Or.inl h

theorem mem_pass3 {limit : ℕ} {pool : List SearchResult} {ds : List (Option ℕ)}
    {sel2 : List SearchResult} {r : SearchResult}
    (h : r ∈ pass3 limit pool ds sel2) : r ∈ sel2 ∨ r ∈ pool := by
  unfold pass3 at h
  split_ifs at h
  · rcases mem_of_mem_appendUpTo h with h1 | h2
    · exact Or.inl h1
    · exact Or.inr (mem_flatten_groups (List.mem_of_mem_filter (mem_sortByScore.mp h2)))
  · exact Or.inl h

theorem diversify_subset {limit : ℕ} {prev : List ℕ} {pool0 : List SearchResult}
    {r : SearchResult} (h : r ∈ diversify limit prev pool0) :
    r ∈ pool0.map (convAdjust prev) := by
  simp only [diversify] at h
  rcases mem_pass3 (mem_sortByScore.mp h) with h2 | hp
  · rcases mem_pass2 h2 with h1 | hp
    · exact mem_pass1 h1
    · exact hp
  · exact hp

theorem searchFilter_mem_facts {allResults : List (Chunk × Frac)} {query userRole : Str}
    {limit : ℕ} {prev : List ℕ} {r : SearchResult}
    (h : r ∈ searchFilter allResults query userRole limit prev) :
    permissionPass userRole r.metadata = true ∧ r.score.toRat ≤ r.original_score.toRat := by
  simp only [searchFilter] at h
  rcases List.mem_map.mp (diversify_subset h) with ⟨r0, hr0, hadj⟩
  have hperm0 := (List.mem_filter.mp hr0).2
  have hmem0 : r0 ∈ sortByScore (dedupBoostAux _ [] allResults) := (List.mem_filter.mp hr0).1
  have hboost := dedupBoost_score_le (mem_sortByScore.mp hmem0)
  constructor
  · rw [← hadj, convAdjust_metadata]
    exact hperm0
  · rw [← hadj, convAdjust_original]
    exact le_trans (convAdjust_score_le prev r0) hboost

/-! ### Claims C1, C3, C5 -/

/-- A concrete chunk that is not public, whose `allowed_roles` ("admin")
does not contain the requesting role ("user"), and whose `owner_id` is `7`
— different from any requesting user other than 7 (indeed `search` receives
no requesting-user identifier at all). -/
def c1Meta : Metadata :=
  ⟨some 1, "doc.txt".toList, [], [], false, "admin".toList, some 7⟩

/-- C1, counterexample.  The claim says a chunk with `is_public = false`,
`owner_id` different from the requesting user, and `user_role` not in
`allowed_roles` is absent from the result list of `search`.  In the code
(rag_service.py line 291) the third disjunct of the permission check is
`metadata.get("owner_id")` — mere truthiness of the owner id, with no
comparison against any requesting user — so this chunk is returned. -/
theorem C1_counterexample :
    (searchFilter [(⟨"hello".toList, c1Meta⟩, Frac.ofInt 1)]
      "qq".toList "user".toList 10 []).map (fun r => r.metadata) = [c1Meta] := by
  decide

/-- C1, amended: every chunk returned by `search` satisfies the permission
rule actually implemented: `is_public`, OR the requesting role occurs in
`allowed_roles.split(",")`, OR the chunk's `owner_id` is truthy (present and
non-zero) — the owner check is deferred to the API level and does not
compare against the requester.  Chunks failing all three are dropped
silently. -/
theorem C1_theorem (allResults : List (Chunk × Frac)) (query userRole : Str)
    (limit : ℕ) (prev : List ℕ) (r : SearchResult)
    (h : r ∈ searchFilter allResults query userRole limit prev) :
    r.metadata.is_public = true ∨
      (pySplitOnChar ',' r.metadata.allowed_roles).contains userRole = true ∨
      ownerTruthy r.metadata.owner_id = true := by
  have hp := (searchFilter_mem_facts h).1
  unfold permissionPass at hp
  rcases Bool.or_eq_true_iff.mp hp with h1 | h2
  · rcases Bool.or_eq_true_iff.mp h1 with h3 | h4
    · exact Or.inl h3
    · exact Or.inr (Or.inl h4)
  · exact Or.inr (Or.inr h2)

/-- C1, witness: the amended rule evaluated on the concrete chunk of
`C1_counterexample`, which is returned because its `owner_id` is truthy. -/
theorem C1_witness :
    c1Meta.is_public = true ∨
      (pySplitOnChar ',' c1Meta.allowed_roles).contains "user".toList = true ∨
      ownerTruthy c1Meta.owner_id = true := by
  have h := C1_theorem [(⟨"hello".toList, c1Meta⟩, Frac.ofInt 1)]
    "qq".toList "user".toList 10 []
    ⟨"hello".toList, Frac.ofInt 1, Frac.ofInt 1, c1Meta⟩ (by decide)
  simpa using h

/-- C3, confirmed: for every chunk in the output of `search`, the final
boosted score is at most the retained original (raw) score: the filename,
title and tag overlap boosts are non-positive, and the
conversation-continuity adjustment subtracts a flat `0.3`. -/
theorem C3_theorem (allResults : List (Chunk × Frac)) (query userRole : Str)
    (limit : ℕ) (prev : List ℕ) (r : SearchResult)
    (h : r ∈ searchFilter allResults query userRole limit prev) :
    r.score.toRat ≤ r.original_score.toRat :=
  (searchFilter_mem_facts h).2

/-- C3, witness: boosted score ≤ original score on a concrete output chunk
whose filename matches the query (boost `-0.4` applied to a raw score 1). -/
theorem C3_witness :
    (Frac.mk 6 10).toRat ≤ (Frac.mk 1 1).toRat := by
  have h := C3_theorem
    [(⟨['x'], ⟨some 1, "segmentation".toList, [], [], true, [], none⟩⟩, Frac.ofInt 1)]
    "segmentation".toList "user".toList 10 []
    ⟨['x'], ⟨6, 10⟩, Frac.ofInt 1, ⟨some 1, "segmentation".toList, [], [], true, [], none⟩⟩
    (by decide)
  simpa [Frac.ofInt] using h

/-- C5, counterexample.  The claim says that for every query all of whose
terms appear as whole words in the filename the boost subtracts `0.5`
(phrase match).  The code (rag_service.py line 243) additionally requires
`len(query_terms) >= 2`: for the single-term query "segmentation" against
filename "segmentation" the output score is `1 - 0.4` (the ≥50% boost),
not `1 - 0.5` as the claim demands. -/
theorem C5_counterexample :
    (searchFilter [(⟨['x'], ⟨some 1, "segmentation".toList, [], [], true, [], none⟩⟩,
        Frac.ofInt 1)]
      "segmentation".toList "user".toList 10 []).map (fun r => r.score) = [⟨6, 10⟩] ∧
    (Frac.mk 6 10).toRat ≠ (Frac.mk 5 10).toRat := by
  constructor
  · decide
  · unfold Frac.toRat
    norm_num

/-- C5, amended: the filename boost of `search` subtracts `0.5` only when
the query has at least two terms (each longer than 3 characters) and all of
them appear as whole words in the filename; otherwise, when at least one
term matches and the matching ratio is ≥ 50% it subtracts `0.4`, and when
the ratio is below 50% it subtracts `0.25 ×` the ratio.  (A single-term
whole-word match therefore gets `0.4`, not `0.5`.) -/
theorem C5_theorem (qt : List Str) (fn : Str) (hfn : fn ≠ []) :
    ((qt.length ≥ 2 ∧ qt.all (fun t => (pySplitWs fn).contains t) = true) →
      filenameMatchScore qt fn = fq (-5) 10) ∧
    (¬(qt.length ≥ 2 ∧ qt.all (fun t => (pySplitWs fn).contains t) = true) →
      (qt.filter (fun t => pyInStr t fn)).length > 0 →
      (Frac.le (fq 1 2) (fracRatio (qt.filter (fun t => pyInStr t fn)).length qt.length) →
        filenameMatchScore qt fn = fq (-4) 10) ∧
      (¬Frac.le (fq 1 2) (fracRatio (qt.filter (fun t => pyInStr t fn)).length qt.length) →
        filenameMatchScore qt fn =
          (fq (-25) 100).mul (fracRatio (qt.filter (fun t => pyInStr t fn)).length qt.length))) := by
  refine ⟨fun hall => ?_, fun hnall hm => ⟨fun hge => ?_, fun hlt => ?_⟩⟩ <;>
  · simp only [filenameMatchScore]
    split_ifs <;> first | rfl | tauto

/-- C5, witness: the amended rule evaluated on the single-term query
"segmentation" against filename "segmentation": the boost is `-0.4`. -/
theorem C5_witness :
    filenameMatchScore ["segmentation".toList] "segmentation".toList = fq (-4) 10 := by
  have h := C5_theorem ["segmentation".toList] "segmentation".toList (by decide)
  exact (h.2 (by decide) (by decide)).1 (by decide)

/-! ### Claim C4: budget and dedup-key invariants of the selection -/

/-- The dedup key of a returned result, as used by the output invariant. -/
def resKey (r : SearchResult) : Option ℕ × Str :=
  dedupKey r.metadata.document_id r.content

/-- Keys of a result list are pairwise distinct. -/
def keysNodup (l : List SearchResult) : Prop := (l.map resKey).Nodup

theorem sortByScore_perm (l : List SearchResult) : (sortByScore l).Perm l :=
  List.perm_insertionSort resLE l

theorem sortByScore_length (l : List SearchResult) : (sortByScore l).length = l.length :=
  (sortByScore_perm l).length_eq

theorem keysNodup_of_perm {l1 l2 : List SearchResult} (hp : l1.Perm l2)
    (h : keysNodup l2) : keysNodup l1 :=
  h.perm (hp.map resKey).symm

theorem keysNodup_of_sublist {l1 l2 : List SearchResult} (hs : l1.Sublist l2)
    (h : keysNodup l2) : keysNodup l1 :=
  h.sublist (hs.map resKey)

theorem keysNodup_sortByScore {l : List SearchResult} (h : keysNodup l) :
    keysNodup (sortByScore l) :=
  keysNodup_of_perm (sortByScore_perm l) h

theorem groupOf_sublist (pool : List SearchResult) (d : Option ℕ) :
    (groupOf pool d).Sublist pool :=
  List.filter_sublist pool

theorem docId_of_mem_groupOf {pool : List SearchResult} {d : Option ℕ} {r : SearchResult}
    (h : r ∈ groupOf pool d) : r.metadata.document_id = d :=
  of_decide_eq_true (List.mem_filter.mp h).2

theorem docId_of_mem_sorted_groupOf {pool : List SearchResult} {d : Option ℕ}
    {r : SearchResult} (h : r ∈ sortByScore (groupOf pool d)) :
    r.metadata.document_id = d :=
  docId_of_mem_groupOf (mem_sortByScore.mp h)

theorem mem_flatten_groups_docId {pool : List SearchResult} {ds : List (Option ℕ)}
    {r : SearchResult}
    (h : r ∈ (ds.map (fun d => sortByScore (groupOf pool d))).flatten) :
    r.metadata.document_id ∈ ds := by
  rcases List.mem_flatten.mp h with ⟨seg, hseg, hxseg⟩
  rcases List.mem_map.mp hseg with ⟨d, hd, hdmap⟩
  rw [docId_of_mem_sorted_groupOf (hdmap ▸ hxseg)]
  exact hd

theorem keysNodup_flatten_groups {pool : List SearchResult} (hpool : keysNodup pool)
    {ds : List (Option ℕ)} (hds : ds.Nodup) :
    keysNodup ((ds.map (fun d => sortByScore (groupOf pool d))).flatten) := by
  induction ds with
  | nil => exact List.nodup_nil
  | cons d rest ih =>
    have hdnotin : d ∉ rest := (List.nodup_cons.mp hds).1
    have hrest := ih (List.nodup_cons.mp hds).2
    have hseg : keysNodup (sortByScore (groupOf pool d)) :=
      keysNodup_sortByScore (keysNodup_of_sublist (groupOf_sublist pool d) hpool)
    simp only [List.map_cons, List.flatten_cons]
    unfold keysNodup
    rw [List.map_append]
    refine List.nodup_append.mpr ⟨hseg, hrest, ?_⟩
    intro k hk1 hk2
    rcases List.mem_map.mp hk1 with ⟨r1, hr1, hkey1⟩
    rcases List.mem_map.mp hk2 with ⟨r2, hr2, hkey2⟩
    have hd1 : r1.metadata.document_id = d := docId_of_mem_sorted_groupOf hr1
    have hd2 : r2.metadata.document_id ∈ rest := mem_flatten_groups_docId hr2
    have : r1.metadata.document_id = r2.metadata.document_id := by
      have := hkey1.trans hkey2.symm
      exact congrArg Prod.fst this
    rw [hd1] at this
    rw [← this] at hd2
    exact hdnotin hd2

theorem appendUpTo_length_le {limit : ℕ} {acc xs : List SearchResult}
    (h : acc.length ≤ limit) : (appendUpTo limit acc xs).length ≤ limit := by
  unfold appendUpTo
  rw [List.length_append, List.length_take]
  omega

theorem appendUpTo_keysNodup {limit : ℕ} {acc xs : List SearchResult}
    (hacc : keysNodup acc) (hxs : keysNodup xs)
    (hdisj : ∀ r1 ∈ acc, ∀ r2 ∈ xs, resKey r1 ≠ resKey r2) :
    keysNodup (appendUpTo limit acc xs) := by
  unfold appendUpTo keysNodup
  rw [List.map_append]
  refine List.nodup_append.mpr ⟨hacc, ?_, ?_⟩
  · exact keysNodup_of_sublist (List.take_sublist _ _) hxs
  · intro k hk1 hk2
    rcases List.mem_map.mp hk1 with ⟨r1, hr1, hkey1⟩
    rcases List.mem_map.mp hk2 with ⟨r2, hr2, hkey2⟩
    exact hdisj r1 hr1 r2 (List.take_subset _ _ hr2) (hkey1.trans hkey2.symm)

theorem mem_appendUpTo_cases {limit : ℕ} {acc xs : List SearchResult} {r : SearchResult}
    (h : r ∈ appendUpTo limit acc xs) : r ∈ acc ∨ r ∈ xs :=
  mem_of_mem_appendUpTo h

theorem pass1_length_le (limit : ℕ) (pool : List SearchResult) (bd : List (Option ℕ)) :
    (pass1 limit pool bd).length ≤ limit := by
  unfold pass1
  exact appendUpTo_length_le (by simp)

theorem pass1_keysNodup (limit : ℕ) (pool : List SearchResult) (bd : List (Option ℕ))
    (hpool : keysNodup pool) (hbd : bd.Nodup) :
    keysNodup (pass1 limit pool bd) := by
  unfold pass1
  exact appendUpTo_keysNodup List.nodup_nil
    (keysNodup_sortByScore (keysNodup_flatten_groups hpool hbd))
    (fun r1 hr1 => by simp at hr1)

theorem pass1_docIds {limit : ℕ} {pool : List SearchResult} {bd : List (Option ℕ)}
    {r : SearchResult} (h : r ∈ pass1 limit pool bd) :
    r.metadata.document_id ∈ bd := by
  unfold pass1 at h
  rcases mem_of_mem_appendUpTo h with h1 | h2
  · simp at h1
  · exact mem_flatten_groups_docId (mem_sortByScore.mp h2)

theorem fold_appendUpTo_facts {limit cpd : ℕ} {pool : List SearchResult}
    (hpool : keysNodup pool) :
    ∀ (ds : List (Option ℕ)) (acc : List SearchResult), ds.Nodup →
    keysNodup acc → (∀ r ∈ acc, r.metadata.document_id ∉ ds) → acc.length ≤ limit →
    keysNodup (ds.foldl
      (fun a d => appendUpTo limit a ((sortByScore (groupOf pool d)).take cpd)) acc) ∧
    (ds.foldl
      (fun a d => appendUpTo limit a ((sortByScore (groupOf pool d)).take cpd)) acc).length
        ≤ limit := by
  intro ds
  induction ds with
  | nil => exact fun acc _ h2 _ h4 => ⟨h2, h4⟩
  | cons d rest ih =>
    intro acc hnd hacc hdisj hlen
    have hdnotin : d ∉ rest := (List.nodup_cons.mp hnd).1
    have hxs : keysNodup ((sortByScore (groupOf pool d)).take cpd) :=
      keysNodup_of_sublist (List.take_sublist _ _)
        (keysNodup_sortByScore (keysNodup_of_sublist (groupOf_sublist pool d) hpool))
    have hacc2 : keysNodup (appendUpTo limit acc ((sortByScore (groupOf pool d)).take cpd)) := by
      refine appendUpTo_keysNodup hacc hxs ?_
      intro r1 hr1 r2 hr2 hkeq
      have hd2 : r2.metadata.document_id = d :=
        docId_of_mem_sorted_groupOf (List.take_subset _ _ hr2)
      have hd1 : r1.metadata.document_id = r2.metadata.document_id :=
        congrArg Prod.fst hkeq
      exact hdisj r1 hr1 (by rw [hd1, hd2]; exact List.mem_cons_self d rest)
    have hdisj2 : ∀ r ∈ appendUpTo limit acc ((sortByScore (groupOf pool d)).take cpd),
        r.metadata.document_id ∉ rest := by
      intro r hr
      rcases mem_of_mem_appendUpTo hr with h1 | h2
      · intro hmem
        exact hdisj r h1 (List.mem_cons_of_mem d hmem)
      · rw [docId_of_mem_sorted_groupOf (List.take_subset _ _ h2)]
        exact hdnotin
    exact ih _ (List.nodup_cons.mp hnd).2 hacc2 hdisj2 (appendUpTo_length_le hlen)

theorem pass2_facts {limit : ℕ} {pool : List SearchResult} (hpool : keysNodup pool)
    {nb : List (Option ℕ)} (hnb : nb.Nodup) {sel1 : List SearchResult}
    (hsel1 : keysNodup sel1) (hdisj : ∀ r ∈ sel1, r.metadata.document_id ∉ nb)
    (hlen : sel1.length ≤ limit) :
    keysNodup (pass2 limit pool nb sel1) ∧ (pass2 limit pool nb sel1).length ≤ limit := by
  unfold pass2
  split_ifs
  · exact fold_appendUpTo_facts hpool nb sel1 hnb hsel1 hdisj hlen
  · exact ⟨hsel1, hlen⟩

theorem pass3_facts {limit : ℕ} {pool : List SearchResult} (hpool : keysNodup pool)
    {ds : List (Option ℕ)} (hds : ds.Nodup) {sel2 : List SearchResult}
    (hsel2 : keysNodup sel2) (hlen : sel2.length ≤ limit) :
    keysNodup (pass3 limit pool ds sel2) ∧ (pass3 limit pool ds sel2).length ≤ limit := by
  unfold pass3
  split_ifs
  · constructor
    · refine appendUpTo_keysNodup hsel2
        (keysNodup_sortByScore (keysNodup_of_sublist (List.filter_sublist _)
          (keysNodup_flatten_groups hpool hds))) ?_
      intro r1 hr1 r2 hr2 hkeq
      have hr2' := mem_sortByScore.mp hr2
      have hpred := (List.mem_filter.mp hr2').2
      have hcontains : (sel2.map (fun r => r.content.take 50)).contains (r2.content.take 50)
          = false := by
        simpa using hpred
      have hsnd : r1.content.take 50 = r2.content.take 50 := congrArg Prod.snd hkeq
      have hmem : r2.content.take 50 ∈ sel2.map (fun r => r.content.take 50) := by
        rw [← hsnd]
        exact List.mem_map.mpr ⟨r1, hr1, rfl⟩
      have htrue : (sel2.map (fun r => r.content.take 50)).contains (r2.content.take 50)
          = true := List.elem_iff.mpr hmem
      rw [hcontains] at htrue
      exact Bool.false_ne_true htrue
    · exact appendUpTo_length_le hlen
  · exact ⟨hsel2, hlen⟩

theorem resKey_convAdjust (prev : List ℕ) (r : SearchResult) :
    resKey (convAdjust prev r) = resKey r := by
  unfold resKey dedupKey
  rw [convAdjust_metadata, convAdjust_content]

theorem keysNodup_map_convAdjust {prev : List ℕ} {pool0 : List SearchResult}
    (h : keysNodup pool0) : keysNodup (pool0.map (convAdjust prev)) := by
  unfold keysNodup
  rw [List.map_map]
  have : pool0.map (resKey ∘ convAdjust prev) = pool0.map resKey :=
    List.map_congr_left (fun r _ => resKey_convAdjust prev r)
  rw [this]
  exact h

theorem dedupBoost_keys_facts (qt : List Str) :
    ∀ (l : List (Chunk × Frac)) (seen : List (Option ℕ × Str)),
    keysNodup (dedupBoostAux qt seen l) ∧
    ∀ k ∈ (dedupBoostAux qt seen l).map resKey, k ∉ seen := by
  intro l
  induction l with
  | nil => exact fun seen => ⟨List.nodup_nil, by simp [dedupBoostAux]⟩
  | cons cs rest ih =>
    intro seen
    obtain ⟨c, s⟩ := cs
    simp only [dedupBoostAux]
    split_ifs with hseen
    · exact ih seen
    · have hkey : resKey (boostResult qt c s) =
          dedupKey c.metadata.document_id c.content := rfl
      obtain ⟨ihn, ihs⟩ := ih (dedupKey c.metadata.document_id c.content :: seen)
      constructor
      · unfold keysNodup
        rw [List.map_cons, hkey]
        refine List.nodup_cons.mpr ⟨?_, ihn⟩
        intro hmem
        exact (ihs _ hmem) (List.mem_cons_self _ _)
      · intro k hk
        rcases List.mem_cons.mp hk with hk1 | hk2
        · rw [hk1, hkey]
          exact hseen
        · intro hks
          exact (ihs k hk2) (List.mem_cons_of_mem _ hks)

theorem diversify_nil (limit : ℕ) (prev : List ℕ) : diversify limit prev [] = [] := by
  simp [diversify, pass1, pass2, pass3, appendUpTo, sortByScore, dedupKeep, groupOf]

theorem boosted_nonboosted_disjoint {prev : List ℕ} {pool0 pool : List SearchResult}
    {limit : ℕ} {r : SearchResult}
    (h : r ∈ pass1 limit pool
      ((dedupKeep (pool.map (fun t => t.metadata.document_id))).filter
        (fun d => docBoosted prev pool0 d))) :
    r.metadata.document_id ∉
      (dedupKeep (pool.map (fun t => t.metadata.document_id))).filter
        (fun d => ! docBoosted prev pool0 d) := by
  intro hmem
  have hb := (List.mem_filter.mp (pass1_docIds h)).2
  have hnb := (List.mem_filter.mp hmem).2
  rw [hb] at hnb
  simp at hnb

/-- C4, confirmed: for every candidate list and every limit, the output of
`search` has at most `limit` entries and no two entries share the same
`(document_id, first-50-characters-of-content)` dedup key; the empty
candidate list yields an empty output, and `limit = 0` yields an empty
output. -/
theorem C4_theorem (allResults : List (Chunk × Frac)) (query userRole : Str)
    (limit : ℕ) (prev : List ℕ) :
    (searchFilter allResults query userRole limit prev).length ≤ limit ∧
    ((searchFilter allResults query userRole limit prev).map resKey).Nodup ∧
    (allResults = [] → searchFilter allResults query userRole limit prev = []) ∧
    (limit = 0 → searchFilter allResults query userRole limit prev = []) := by
  classical
  have hkeys0 : keysNodup (dedupBoostAux
      (dedupKeep ((pySplitWs (pyLower (pyReplaceChar '-' ' ' (pyLower query)))).filter
        (fun t => t.length > 3))) [] allResults) :=
    (dedupBoost_keys_facts _ allResults []).1
  have hfacts : ∀ (pool0 : List SearchResult), keysNodup pool0 →
      (diversify limit prev pool0).length ≤ limit ∧ keysNodup (diversify limit prev pool0) := by
    intro pool0 hpool0
    have hpool : keysNodup (pool0.map (convAdjust prev)) := keysNodup_map_convAdjust hpool0
    have hdocs : (dedupKeep ((pool0.map (convAdjust prev)).map
        (fun r => r.metadata.document_id))).Nodup := dedupKeep_nodup _
    have hbd : ((dedupKeep ((pool0.map (convAdjust prev)).map
        (fun r => r.metadata.document_id))).filter
          (fun d => docBoosted prev pool0 d)).Nodup := hdocs.filter _
    have hnb : ((dedupKeep ((pool0.map (convAdjust prev)).map
        (fun r => r.metadata.document_id))).filter
          (fun d => ! docBoosted prev pool0 d)).Nodup := hdocs.filter _
    have h1 := pass1_keysNodup limit (pool0.map (convAdjust prev))
      ((dedupKeep ((pool0.map (convAdjust prev)).map
        (fun r => r.metadata.document_id))).filter (fun d => docBoosted prev pool0 d))
      hpool hbd
    have h1len := pass1_length_le limit (pool0.map (convAdjust prev))
      ((dedupKeep ((pool0.map (convAdjust prev)).map
        (fun r => r.metadata.document_id))).filter (fun d => docBoosted prev pool0 d))
    have h2 := pass2_facts hpool hnb h1 (fun r hr => boosted_nonboosted_disjoint hr) h1len
    have h3 := pass3_facts hpool hdocs h2.1 h2.2
    unfold diversify
    constructor
    · rw [sortByScore_length]
      exact h3.2
    · exact keysNodup_sortByScore h3.1
  have hmain := hfacts
    ((sortByScore (dedupBoostAux
      (dedupKeep ((pySplitWs (pyLower (pyReplaceChar '-' ' ' (pyLower query)))).filter
        (fun t => t.length > 3))) [] allResults)).filter
      (fun r => permissionPass userRole r.metadata))
    (keysNodup_of_sublist (List.filter_sublist _) (keysNodup_sortByScore hkeys0))
  simp only [searchFilter]
  refine ⟨hmain.1, hmain.2, ?_, ?_⟩
  · intro ha
    subst ha
    simp only [dedupBoostAux, sortByScore]
    simp only [List.insertionSort, List.filter_nil]
    exact diversify_nil limit prev
  · intro hl
    subst hl
    simp only [diversify, pass1, pass2, pass3, appendUpTo, sortByScore]
    simp

/-- C4, witness: the edge cases evaluated concretely — empty candidate list
gives an empty output, and `limit = 0` gives an empty output even on a
non-empty candidate list. -/
theorem C4_witness :
    searchFilter [] "q".toList "user".toList 0 [] = [] ∧
    searchFilter [(⟨['x'], ⟨some 1, [], [], [], true, [], none⟩⟩, Frac.ofInt 1)]
      "q".toList "user".toList 0 [] = [] :=
  ⟨(C4_theorem [] "q".toList "user".toList 0 []).2.2.1 rfl,
   (C4_theorem [(⟨['x'], ⟨some 1, [], [], [], true, [], none⟩⟩, Frac.ofInt 1)]
      "q".toList "user".toList 0 []).2.2.2 rfl⟩

/-! ### `RAGService.query`: conversation-history processing (lines 405-491)

The history is caller-supplied JSON-ish data, so the turns are modelled as
dynamically-typed Python values; attribute errors raised by `.get`/`.strip`
on values of the wrong shape are modelled with `Except`.  A Python `set`
built by successive `add` calls is modelled as a list of its insertions
(the claims below consume only emptiness of the set). -/

/-- A Python value, as far as the history processing is concerned. -/
inductive PyVal where
  | str (s : Str)
  | int (n : ℤ)
  | dict (kvs : List (Str × PyVal))
  | list (xs : List PyVal)
  | none

/-- Python truthiness. -/
def PyVal.truthy : PyVal → Bool
  | .str s => s ≠ []
  | .int n => n ≠ 0
  | .dict kvs => !kvs.isEmpty
  | .list xs => !xs.isEmpty
  | .none => false

/-- `v == "s"` for a string literal. -/
def PyVal.eqStr (v : PyVal) (s : Str) : Bool :=
  match v with
  | .str t => t = s
  | _ => false

/-- Is the value a dict (`isinstance(msg, dict)`)? -/
def PyVal.isDict : PyVal → Bool
  | .dict _ => true
  | _ => false

/-- `key in v` for a dict. -/
def PyVal.hasKey (v : PyVal) (key : Str) : Bool :=
  match v with
  | .dict kvs => kvs.any (fun kv => kv.fst = key)
  | _ => false

/-- `v.get(key, default)`: raises `AttributeError` unless `v` is a dict. -/
def pyGet (v : PyVal) (key : Str) (dflt : PyVal) : Except String PyVal :=
  match v with
  | .dict kvs =>
    match kvs.find? (fun kv => kv.fst = key) with
    | some kv => .ok kv.snd
    | Option.none => .ok dflt
  | _ => .error "AttributeError"

/-- `v.strip()`: raises unless `v` is a string. -/
def pyStripVal : PyVal → Except String Str
  | .str s => .ok (pyStrip s)
  | _ => .error "AttributeError"

/-- `v.lower()`: raises unless `v` is a string. -/
def pyLowerVal : PyVal → Except String Str
  | .str s => .ok (pyLower s)
  | _ => .error "AttributeError"

/-- `for x in v`: lists iterate their elements, strings their characters,
dicts their keys; other values raise `TypeError`. -/
def pyIter : PyVal → Except String (List PyVal)
  | .list xs => .ok xs
  | .str s => .ok (s.map (fun c => PyVal.str [c]))
  | .dict kvs => .ok (kvs.map (fun kv => PyVal.str kv.fst))
  | .int _ => .error "TypeError"
  | .none => .error "TypeError"

/-- The content-type hints of rag_service.py lines 409-415. -/
def contentTypeHints : List (Str × Str) :=
  [("doc".toList, "document report information".toList),
   ("ppt".toList, "presentation slides content".toList),
   ("mp4".toList, "demo video tutorial".toList),
   ("podcast".toList, "dialogue conversation interview".toList),
   ("speech".toList, "monologue speech talking points".toList)]

/-- Lines 406-417: append a content-type hint to the question when a known
truthy content type is declared. -/
def enhancedQuestion (q : Str) (ct : Option Str) : Str :=
  match ct with
  | Option.none => q
  | Option.some c =>
    if c ≠ [] then
      match contentTypeHints.find? (fun kv => kv.fst = c) with
      | Option.some kv => q ++ (' ' :: kv.snd)
      | Option.none => q
    else q

/-- The action/imperative phrases of lines 422-425. -/
def actionPhrases : List Str :=
  ["save as".toList, "save it as".toList, "create".toList, "generate".toList,
   "make".toList, "convert to".toList, "export as".toList, "download as".toList,
   "turn into".toList]

/-- Lines 421-425: the query is an action request when any action phrase
occurs in the lowered, stripped (enhanced) question. -/
def isActionRequest (q : Str) (ct : Option Str) : Bool :=
  actionPhrases.any (fun p => pyInStr p (pyStrip (pyLower (enhancedQuestion q ct))))

/-- The short acknowledgements excluded at lines 458 and 472. -/
def ackStrings : List Str :=
  ["yes".toList, "no".toList, "ok".toList, "thanks".toList, "thank you".toList]

/-- The filename words dropped at line 450. -/
def stopFileWords : List Str :=
  ["study".toList, "guide".toList, "demo".toList, "script".toList, "deck".toList,
   "document".toList]

/-- Lines 440-451: one `sources` entry — collect a truthy `document_id` and
the useful words of a truthy `filename`. -/
def processSources : List PyVal → List PyVal × List Str →
    Except String (List PyVal × List Str)
  | [], acc => .ok acc
  | src :: rest, (docs, kws) =>
    match pyGet src "metadata".toList (PyVal.dict []) with
    | .error e => .error e
    | .ok srcMeta =>
    match pyGet srcMeta "document_id".toList PyVal.none with
    | .error e => .error e
    | .ok docId =>
    match pyGet srcMeta "filename".toList (PyVal.str []) with
    | .error e => .error e
    | .ok fnameV =>
      let docs2 := if docId.truthy then docs ++ [docId] else docs
      if fnameV.truthy then
        match pyLowerVal fnameV with
        | .error e => .error e
        | .ok fl =>
          processSources rest (docs2,
            kws ++ (pySplitWs (pyReplaceChar '-' ' ' (pyReplaceChar '.' ' ' fl))).filter
              (fun w => w.length > 3 ∧ ¬ stopFileWords.contains w))
      else processSources rest (docs2, kws)

/-- Lines 435-451: scan the last-10 window (most recent first) for
assistant messages citing sources. -/
def assistantScan : List PyVal → List PyVal × List Str →
    Except String (List PyVal × List Str)
  | [], acc => .ok acc
  | msg :: rest, acc =>
    match pyGet msg "role".toList PyVal.none with
    | .error e => .error e
    | .ok role =>
    if role.eqStr "assistant".toList then
      if msg.hasKey "metadata".toList then
        match pyGet msg "metadata".toList (PyVal.dict []) with
        | .error e => .error e
        | .ok meta =>
        match pyGet meta "sources".toList (PyVal.list []) with
        | .error e => .error e
        | .ok sources =>
        match pyIter sources with
        | .error e => .error e
        | .ok srcs =>
        match processSources srcs acc with
        | .error e => .error e
        | .ok acc2 => assistantScan rest acc2
      else assistantScan rest acc
    else assistantScan rest acc

/-- Lines 454-462: the topic words of the most recent substantial prior
user message in the last-10 window (stop at the first hit). -/
def userTopicScan : List PyVal → Except String (List Str)
  | [] => .ok []
  | msg :: rest =>
    match pyGet msg "role".toList PyVal.none with
    | .error e => .error e
    | .ok role =>
    if role.eqStr "user".toList then
      match pyGet msg "content".toList (PyVal.str []) with
      | .error e => .error e
      | .ok cv =>
      match pyStripVal cv with
      | .error e => .error e
      | .ok content =>
      if content.length > 20 ∧ ¬ ackStrings.contains (pyLower content) then
        .ok ((pySplitWs (pyLower content)).filter (fun w => w.length > 3))
      else userTopicScan rest
    else userTopicScan rest

/-- Lines 430-462: previously-used documents and topic keywords from the
last 10 turns (most recent first); empty when the history is empty. -/
def extractHistoryContext (history : List PyVal) :
    Except String (List PyVal × List Str) :=
  if history.isEmpty then .ok ([], [])
  else
    match assistantScan ((history.reverse).take 10) ([], []) with
    | .error e => .error e
    | .ok (docs, kws) =>
    match userTopicScan ((history.reverse).take 10) with
    | .error e => .error e
    | .ok kws2 => .ok (docs, kws ++ kws2)

/-- Lines 468-474: the most recent substantial prior user message of the
whole (reversed) history, if any. -/
def findTopicQuery : List PyVal → Except String (Option Str)
  | [] => .ok Option.none
  | msg :: rest =>
    match pyGet msg "role".toList PyVal.none with
    | .error e => .error e
    | .ok role =>
    if role.eqStr "user".toList then
      match pyGet msg "content".toList (PyVal.str []) with
      | .error e => .error e
      | .ok cv =>
      match pyStripVal cv with
      | .error e => .error e
      | .ok content =>
      if content.length > 20 ∧ ¬ ackStrings.contains (pyLower content) then
        .ok (Option.some content)
      else findTopicQuery rest
    else findTopicQuery rest

/-- Lines 464-488: the effective search string — the prior topic for action
requests with history, else the keyword-enhanced query, else the literal
question. -/
def buildSearchQuery (question : Str) (ct : Option Str) (history : List PyVal)
    (kws : List Str) : Except String Str :=
  if isActionRequest question ct && !history.isEmpty then
    match findTopicQuery history.reverse with
    | .error e => .error e
    | .ok (Option.some t) => .ok t
    | .ok Option.none => .ok question
  else if kws ≠ [] then
    .ok (question ++ (' ' :: pyJoinSpace ((dedupKeep kws).take 5)))
  else .ok question

/-- What `query` computes before retrieval: the effective search string,
the previously-used-document set and the topic keywords. -/
structure QueryContext where
  searchQuery : Str
  prevDocs : List PyVal
  topicKeywords : List Str

/-- `RAGService.query`, lines 405-488: the full history processing. -/
def computeSearchContext (question : Str) (ct : Option Str) (history : List PyVal) :
    Except String QueryContext :=
  match extractHistoryContext history with
  | .error e => .error e
  | .ok (docs, kws) =>
  match buildSearchQuery question ct history kws with
  | .error e => .error e
  | .ok sq => .ok ⟨sq, docs, kws⟩

/-! ### Claims C6 and C8 -/

theorem buildSearchQuery_action {question : Str} {ct : Option Str}
    {history : List PyVal} {kws : List Str} {t : Str}
    (h1 : isActionRequest question ct = true) (h2 : history.isEmpty = false)
    (h4 : findTopicQuery history.reverse = .ok (Option.some t)) :
    buildSearchQuery question ct history kws = .ok t := by
  unfold buildSearchQuery
  rw [if_pos (by rw [h1, h2]; rfl)]
  rw [h4]

/-- C6, confirmed: for every query containing an action/imperative phrase
and every history whose processing succeeds and contains a substantial prior
user message, the effective search string computed by `query` equals the
most recent such message (its stripped content), not the literal action
text. -/
theorem C6_theorem (question : Str) (ct : Option Str) (history : List PyVal)
    (ctx : QueryContext) (t : Str)
    (h1 : isActionRequest question ct = true)
    (h2 : history.isEmpty = false)
    (h3 : computeSearchContext question ct history = .ok ctx)
    (h4 : findTopicQuery history.reverse = .ok (Option.some t)) :
    ctx.searchQuery = t := by
  unfold computeSearchContext at h3
  cases hE : extractHistoryContext history with
  | error e =>
    rw [hE] at h3
    exact Except.noConfusion h3
  | ok p =>
    obtain ⟨docs, kws⟩ := p
    rw [hE] at h3
    dsimp only at h3
    rw [buildSearchQuery_action h1 h2 h4] at h3
    dsimp only at h3
    cases h3
    rfl

/-- The most recent substantial prior user message of the witness history. -/
def c6Topic : Str := "tell me about zero trust segmentation".toList

/-- The witness history: one prior user turn with a substantial content. -/
def c6History : List PyVal :=
  [PyVal.dict [("role".toList, PyVal.str "user".toList),
               ("content".toList, PyVal.str c6Topic)]]

/-- C6, witness: for the query "save it as a doc" (Scenario C) against a
history containing the substantial user message, the effective search
query equals that message. -/
theorem C6_witness :
    (QueryContext.mk c6Topic []
      ["tell".toList, "about".toList, "zero".toList, "trust".toList,
       "segmentation".toList]).searchQuery = c6Topic :=
  C6_theorem "save it as a doc".toList Option.none c6History _ c6Topic
    (by decide) rfl rfl rfl

/-- C8, counterexample.  The claim says the history processing of `query`
never raises even for turns that are not well-formed records.  A history
containing a bare string raises `AttributeError` at
`msg.get("role")` (rag_service.py line 436). -/
theorem C8_counterexample :
    computeSearchContext "hi".toList Option.none [PyVal.str "x".toList] =
      .error "AttributeError" := rfl

theorem pyGet_missing_role {kvs : List (Str × PyVal)}
    (h : ∀ kv ∈ kvs, kv.fst ≠ "role".toList) (dflt : PyVal) :
    pyGet (PyVal.dict kvs) "role".toList dflt = .ok dflt := by
  unfold pyGet
  have hfind : kvs.find? (fun kv => kv.fst = "role".toList) = Option.none := by
    rw [List.find?_eq_none]
    intro kv hkv
    simpa using h kv hkv
  dsimp only
  rw [hfind]

theorem assistantScan_missing_role {msgs : List PyVal}
    (h : ∀ t ∈ msgs, ∃ kvs, t = PyVal.dict kvs ∧ ∀ kv ∈ kvs, kv.fst ≠ "role".toList)
    (acc : List PyVal × List Str) : assistantScan msgs acc = .ok acc := by
  induction msgs with
  | nil => rfl
  | cons msg rest ih =>
    obtain ⟨kvs, rfl, hk⟩ := h msg (List.mem_cons_self _ _)
    unfold assistantScan
    rw [pyGet_missing_role hk]
    exact ih (fun t ht => h t (List.mem_cons_of_mem _ ht))

theorem userTopicScan_missing_role {msgs : List PyVal}
    (h : ∀ t ∈ msgs, ∃ kvs, t = PyVal.dict kvs ∧ ∀ kv ∈ kvs, kv.fst ≠ "role".toList) :
    userTopicScan msgs = .ok [] := by
  induction msgs with
  | nil => rfl
  | cons msg rest ih =>
    obtain ⟨kvs, rfl, hk⟩ := h msg (List.mem_cons_self _ _)
    unfold userTopicScan
    rw [pyGet_missing_role hk]
    exact ih (fun t ht => h t (List.mem_cons_of_mem _ ht))

theorem findTopicQuery_missing_role {msgs : List PyVal}
    (h : ∀ t ∈ msgs, ∃ kvs, t = PyVal.dict kvs ∧ ∀ kv ∈ kvs, kv.fst ≠ "role".toList) :
    findTopicQuery msgs = .ok Option.none := by
  induction msgs with
  | nil => rfl
  | cons msg rest ih =>
    obtain ⟨kvs, rfl, hk⟩ := h msg (List.mem_cons_self _ _)
    unfold findTopicQuery
    rw [pyGet_missing_role hk]
    exact ih (fun t ht => h t (List.mem_cons_of_mem _ ht))

/-- C8, amended: for every history whose turns are well-formed records with
the relevant fields missing (dicts without a `role` key), the processing
never raises and falls back to the literal query with empty
previously-used-document and topic-keyword sets.  (A turn that is not a
record raises `AttributeError`, per `C8_counterexample`.) -/
theorem C8_theorem (question : Str) (ct : Option Str) (history : List PyVal)
    (h : ∀ t ∈ history, ∃ kvs, t = PyVal.dict kvs ∧ ∀ kv ∈ kvs, kv.fst ≠ "role".toList) :
    computeSearchContext question ct history = .ok ⟨question, [], []⟩ := by
  have hsub : ∀ t ∈ (history.reverse).take 10, ∃ kvs, t = PyVal.dict kvs ∧
      ∀ kv ∈ kvs, kv.fst ≠ "role".toList := by
    intro t ht
    exact h t (List.mem_reverse.mp (List.take_subset _ _ ht))
  have hrev : ∀ t ∈ history.reverse, ∃ kvs, t = PyVal.dict kvs ∧
      ∀ kv ∈ kvs, kv.fst ≠ "role".toList := by
    intro t ht
    exact h t (List.mem_reverse.mp ht)
  have hext : extractHistoryContext history = .ok ([], []) := by
    unfold extractHistoryContext
    split_ifs
    · rfl
    · rw [assistantScan_missing_role hsub, userTopicScan_missing_role hsub]; rfl
  have hbuild : buildSearchQuery question ct history [] = .ok question := by
    unfold buildSearchQuery
    split_ifs with hc1 hc2
    · rw [findTopicQuery_missing_role hrev]
    · exact absurd rfl hc2
    · rfl
  unfold computeSearchContext
  rw [hext]
  dsimp only
  rw [hbuild]

/-- C8, witness: a history of one record turn with no `role` field (only a
`content` field) never raises and yields the literal query with empty
sets. -/
theorem C8_witness :
    computeSearchContext "hi".toList Option.none
      [PyVal.dict [("content".toList, PyVal.str "hello".toList)]] =
      .ok ⟨"hi".toList, [], []⟩ :=
  C8_theorem "hi".toList Option.none _
    (by
      intro t ht
      simp only [List.mem_singleton] at ht
      subst ht
      refine ⟨[("content".toList, PyVal.str "hello".toList)], rfl, ?_⟩
      intro kv hkv
      simp only [List.mem_singleton] at hkv
      subst hkv
      decide)

/-! ### `DemoVideoService`: helpers

`find_demo_videos` is modelled from the point where `search_results` has
been returned by `rag_service.search` (demo_video_service.py line 628).
`metadata.get("filename", "Unknown")` is modelled by the stored `filename`
field (ingestion always supplies one; the "Unknown" default would only
apply to a chunk stored without a filename). -/

/-- `max` on scores (Python `max(a, b)` returns `a` on ties). -/
def Frac.maxF (a b : Frac) : Frac := if Frac.le b a then a else b

/-- `min` on scores (Python `min(a, b)` returns `a` on ties). -/
def Frac.minF (a b : Frac) : Frac := if Frac.le a b then a else b

/-- `[a-zA-Z0-9_-]`, the video-id character class of the YouTube patterns. -/
def isIdChar (c : Char) : Bool := c.isAlpha || c.isDigit || c = '_' || c = '-'

/-- The literal prefix alternatives of the five `YOUTUBE_PATTERNS` regexes of
demo_video_service.py lines 14-20 (`https?` and `(?:www\.)?` expanded; the
alternatives of one pattern are mutually exclusive at any position). -/
def ytPatterns : List (List Str) :=
  [["https://www.youtube.com/watch?v=".toList, "https://youtube.com/watch?v=".toList,
    "http://www.youtube.com/watch?v=".toList, "http://youtube.com/watch?v=".toList],
   ["https://www.youtu.be/".toList, "https://youtu.be/".toList,
    "http://www.youtu.be/".toList, "http://youtu.be/".toList],
   ["https://www.youtube.com/embed/".toList, "https://youtube.com/embed/".toList,
    "http://www.youtube.com/embed/".toList, "http://youtube.com/embed/".toList],
   ["youtube.com/watch?v=".toList],
   ["youtu.be/".toList]]

/-- Try the alternatives of one pattern at the current position: a match is
a case-insensitive literal prefix followed by at least one id character
(greedy); returns the captured id and the remainder. -/
def ytTryAlts : List Str → Str → Option (Str × Str)
  | [], _ => Option.none
  | a :: more, s =>
    if isPfxCI a s then
      let rest := s.drop a.length
      let idRun := rest.takeWhile isIdChar
      if idRun = [] then ytTryAlts more s
      else Option.some (idRun, rest.drop idRun.length)
    else ytTryAlts more s

/-- Fuel-indexed scan for `ytFindAll` (every step strictly shrinks the
string, so `length + 1` fuel always suffices). -/
def ytFindAllAux (alts : List Str) : ℕ → Str → List Str
  | 0, _ => []
  | _ + 1, [] => []
  | fuel + 1, c :: rest =>
    match ytTryAlts alts (c :: rest) with
    | Option.some (id, after) =>
      if after.length < rest.length + 1 then id :: ytFindAllAux alts fuel after
      else ytFindAllAux alts fuel rest
    | Option.none => ytFindAllAux alts fuel rest

/-- `re.finditer` for one YouTube pattern: scan left to right, collect the
captured ids of non-overlapping matches. -/
def ytFindAll (alts : List Str) (s : Str) : List Str :=
  ytFindAllAux alts (s.length + 1) s

/-- One extracted link (`_extract_youtube_links` result entry). -/
structure LinkInfo where
  url : Str
  video_id : Str
  embed_url : Str
deriving DecidableEq

/-- `DemoVideoService._extract_youtube_links` (lines 86-118): ids of all
five patterns in pattern-then-position order, de-duplicated by id, each
normalized to watch/embed URL forms. -/
def extractYoutubeLinks (text : Str) : List LinkInfo :=
  (dedupKeep ((ytPatterns.map (fun alts => ytFindAll alts text)).flatten)).map
    (fun id => ⟨"https://www.youtube.com/watch?v=".toList ++ id, id,
      "https://www.youtube.com/embed/".toList ++ id⟩)

/-- Split a comma-separated tag line into stripped non-empty tags. -/
def parseTagLine (line : Str) : List Str :=
  ((pySplitOnChar ',' (line.takeWhile (fun c => c ≠ '\n'))).map pyStrip).filter
    (fun t => t ≠ [])

/-- `re.search(r'TAGS:\s*(.+)', content, IGNORECASE | MULTILINE)` as consumed
by `_extract_tags_from_content`: find the first occurrence of "tags:"
(case-insensitive) where the pattern matches; `\s*` skips whitespace
(newlines included) and `(.+)` captures to the end of that line.  When the
skipped whitespace runs into a newline/end, backtracking can only capture
whitespace, which strips to an empty tag list. -/
def tagsAux : Str → List Str
  | [] => []
  | c :: rest =>
    if isPfxCI "tags:".toList (c :: rest) then
      let after := (c :: rest).drop 5
      let ws := after.takeWhile pyIsSpace
      match after.drop ws.length with
      | b :: bs =>
        if b = '\n' then
          if ws.any (fun w => w ≠ '\n') then [] else tagsAux rest
        else parseTagLine (b :: bs)
      | [] => if ws.any (fun w => w ≠ '\n') then [] else tagsAux rest
    else tagsAux rest

/-- `DemoVideoService._extract_tags_from_content` (lines 247-256). -/
def extractTagsFromContent (content : Str) : List Str := tagsAux content

/-- `re.sub(r'\s*demo\s*video\s*$', '', s, IGNORECASE)` (lines 274/287/295). -/
def subDemoVideoSuffix (s : Str) : Str :=
  reSub false [RItem.ws0, RItem.lit "demo".toList, RItem.ws0,
    RItem.lit "video".toList, RItem.ws0, RItem.eos] s

/-- Index of the last `'.'` of a string, if any. -/
def rfindDot (s : Str) : Option ℕ :=
  (s.reverse.findIdx? (fun c => c = '.')).map (fun j => s.length - 1 - j)

/-- `Path(filename).stem`: the final path component without its suffix (a
suffix needs a dot that is neither leading nor trailing). -/
def pathStem (filename : Str) : Str :=
  let base := (pySplitOnChar '/' filename).getLastD []
  match rfindDot base with
  | Option.some i => if 0 < i ∧ i < base.length - 1 then base.take i else base
  | Option.none => base

/-- The product-name indicator substrings of line 284. -/
def productIndicators : List Str :=
  ["snortml".toList, "eve".toList, "aiops".toList, "rtc".toList, "sgt".toList,
   "mcd".toList, "hypershield".toList, "l4".toList]

/-- The line scan of `_extract_product_from_content` (lines 261-290): the
first 15 lines, preferring a `"Category | Product"` line, else a short line
containing a known indicator. -/
def productScanLines : List Str → Option Str
  | [] => Option.none
  | line :: rest =>
    let l := pyStrip line
    if l = [] ∨ isPfx "TAGS:".toList l then productScanLines rest
    else if l.contains '|' ∧ l.length < 200 then
      let parts := (pySplitOnChar '|' l).map pyStrip
      if parts.length ≥ 2 then
        let product := pyNormWs (subDemoVideoSuffix (pyStrip (parts.getLastD [])))
        if product ≠ [] ∧ product.length > 3 then Option.some product
        else productScanLines rest
      else productScanLines rest
    else if l.length > 5 ∧ l.length < 150 then
      if productIndicators.any (fun ind => pyInStr ind (pyLower l)) then
        let product := pyNormWs (subDemoVideoSuffix (pyStrip l))
        if product ≠ [] ∧ product.length > 3 then Option.some product
        else productScanLines rest
      else productScanLines rest
    else productScanLines rest

/-- `DemoVideoService._extract_product_from_content` (lines 258-297):
title-line scan, else the normalized filename stem when long enough. -/
def extractProductFromContent (content filename : Str) : Option Str :=
  match productScanLines ((pySplitOnChar '\n' content).take 15) with
  | Option.some p => Option.some p
  | Option.none =>
    let name := pyNormWs (subDemoVideoSuffix
      (pyReplaceChar '-' ' ' (pyReplaceChar '_' ' ' (pathStem filename))))
    if name ≠ [] ∧ name.length > 3 then Option.some name else Option.none

/-- Fuel-indexed splitter for `re.split(r'[.!?]\s+', text)` (every step
strictly shrinks the string, so `length + 1` fuel always suffices): split at
a sentence-ending punctuation character followed by a (greedy) whitespace
run. -/
def sentSplitAux : ℕ → Str → List Str → Str → List Str
  | 0, cur, acc, _ => (cur.reverse :: acc).reverse
  | _ + 1, cur, acc, [] => (cur.reverse :: acc).reverse
  | fuel + 1, cur, acc, c :: rest =>
    if (c = '.' || c = '!' || c = '?') && (match rest with
        | r :: _ => pyIsSpace r
        | [] => false) then
      sentSplitAux fuel [] (cur.reverse :: acc) (rest.drop (rest.takeWhile pyIsSpace).length)
    else sentSplitAux fuel (c :: cur) acc rest

/-- `re.split(r'[.!?]\s+', text)`. -/
def sentSplit (s : Str) : List Str := sentSplitAux (s.length + 1) [] [] s

/-- The title prefix markers stripped at line 141. -/
def titlePfxList : List Str :=
  ["Video:".toList, "Demo:".toList, "Link:".toList, "Watch:".toList,
   "View:".toList, "-".toList, "•".toList]

/-- The sequential prefix-stripping loop of lines 141-143. -/
def stripTitlePfxs : List Str → Str → Str
  | [], s => s
  | p :: more, s =>
    if isPfx p s then stripTitlePfxs more (pyStrip (s.drop p.length))
    else stripTitlePfxs more s

/-- `DemoVideoService._extract_video_title` (lines 120-156). -/
def extractVideoTitle (content videoUrl : Str) : Option Str :=
  match pyFindCI videoUrl content with
  | Option.none => Option.none
  | Option.some pos =>
    let start := pos - 200
    let textBefore := pyStrip ((content.drop start).take (pos - start))
    let lastLine := stripTitlePfxs titlePfxList
      (pyStrip ((pySplitOnChar '\n' textBefore).getLastD []))
    if lastLine ≠ [] ∧ lastLine.length > 5 ∧ lastLine.length < 150 then
      Option.some lastLine
    else if textBefore ≠ [] then
      let lastSent := pyStrip ((sentSplit textBefore).getLastD [])
      if lastSent.length > 10 ∧ lastSent.length < 150 then Option.some lastSent
      else Option.none
    else Option.none

/-- The eight generation-phrase patterns of `_clean_query` (lines 214-223),
with their `^`-anchoring. -/
def generationPatterns : List (Bool × List RItem) :=
  [(false, [RItem.lit "please".toList, RItem.ws1, RItem.lit "generate".toList, RItem.ws1,
    RItem.optAlts [[BItem.lit "a".toList, BItem.ws1]], RItem.optAlts [[BItem.lit "demo".toList, BItem.ws1]],
    RItem.optAlts [[BItem.lit "video".toList, BItem.ws1]],
    RItem.optAlts [[BItem.lit "regarding".toList, BItem.ws1]],
    RItem.optAlts [[BItem.lit "about".toList, BItem.ws1]]]),
   (false, [RItem.lit "generate".toList, RItem.ws1,
    RItem.optAlts [[BItem.lit "a".toList, BItem.ws1]], RItem.optAlts [[BItem.lit "demo".toList, BItem.ws1]],
    RItem.optAlts [[BItem.lit "video".toList, BItem.ws1]],
    RItem.optAlts [[BItem.lit "regarding".toList, BItem.ws1]],
    RItem.optAlts [[BItem.lit "about".toList, BItem.ws1]]]),
   (false, [RItem.lit "create".toList, RItem.ws1,
    RItem.optAlts [[BItem.lit "a".toList, BItem.ws1]], RItem.optAlts [[BItem.lit "demo".toList, BItem.ws1]],
    RItem.optAlts [[BItem.lit "video".toList, BItem.ws1]],
    RItem.optAlts [[BItem.lit "regarding".toList, BItem.ws1]],
    RItem.optAlts [[BItem.lit "about".toList, BItem.ws1]]]),
   (false, [RItem.lit "make".toList, RItem.ws1,
    RItem.optAlts [[BItem.lit "a".toList, BItem.ws1]], RItem.optAlts [[BItem.lit "demo".toList, BItem.ws1]],
    RItem.optAlts [[BItem.lit "video".toList, BItem.ws1]],
    RItem.optAlts [[BItem.lit "regarding".toList, BItem.ws1]],
    RItem.optAlts [[BItem.lit "about".toList, BItem.ws1]]]),
   (false, [RItem.optAlts [[BItem.lit "demo".toList, BItem.ws1]], RItem.lit "video".toList, RItem.ws1,
    RItem.alts ["about".toList, "regarding".toList, "for".toList, "on".toList], RItem.ws1]),
   (true, [RItem.lit "please".toList, RItem.ws1]),
   (false, [RItem.ws1, RItem.lit "video".toList, RItem.ws0, RItem.eos]),
   (false, [RItem.ws1, RItem.lit "demo".toList, RItem.ws1, RItem.lit "video".toList,
    RItem.ws0, RItem.eos])]

/-- The six request-phrase patterns of `_clean_query` (lines 230-237), all
`^`-anchored. -/
def requestPatterns : List (Bool × List RItem) :=
  [(true, [RItem.lit "give".toList, RItem.ws1,
    RItem.optAlts [[BItem.lit "re".toList, BItem.lit ":".toList, BItem.ws0], [BItem.lit "re".toList, BItem.ws0]],
    RItem.optAlts [[BItem.lit "me".toList, BItem.ws1]]]),
   (true, [RItem.lit "show".toList, RItem.ws1, RItem.optAlts [[BItem.lit "me".toList, BItem.ws1]]]),
   (true, [RItem.lit "find".toList, RItem.ws1, RItem.optAlts [[BItem.lit "me".toList, BItem.ws1]],
    RItem.optAlts [[BItem.lit "a".toList, BItem.ws1]], RItem.optAlts [[BItem.lit "demo".toList, BItem.ws1]],
    RItem.optAlts [[BItem.lit "video".toList, BItem.ws1]], RItem.optAlts [[BItem.lit "for".toList, BItem.ws1]],
    RItem.optAlts [[BItem.lit "about".toList, BItem.ws1]]]),
   (true, [RItem.lit "get".toList, RItem.ws1, RItem.optAlts [[BItem.lit "me".toList, BItem.ws1]],
    RItem.optAlts [[BItem.lit "a".toList, BItem.ws1]], RItem.optAlts [[BItem.lit "demo".toList, BItem.ws1]],
    RItem.optAlts [[BItem.lit "video".toList, BItem.ws1]], RItem.optAlts [[BItem.lit "for".toList, BItem.ws1]],
    RItem.optAlts [[BItem.lit "about".toList, BItem.ws1]]]),
   (true, [RItem.lit "i".toList, RItem.ws1, RItem.lit "want".toList, RItem.ws1,
    RItem.optAlts [[BItem.lit "a".toList, BItem.ws1]], RItem.optAlts [[BItem.lit "demo".toList, BItem.ws1]],
    RItem.optAlts [[BItem.lit "video".toList, BItem.ws1]], RItem.optAlts [[BItem.lit "for".toList, BItem.ws1]],
    RItem.optAlts [[BItem.lit "about".toList, BItem.ws1]]]),
   (true, [RItem.lit "can".toList, RItem.ws1, RItem.lit "you".toList, RItem.ws1,
    RItem.alts ["give".toList, "show".toList, "find".toList, "get".toList], RItem.ws1,
    RItem.optAlts [[BItem.lit "me".toList, BItem.ws1]], RItem.optAlts [[BItem.lit "a".toList, BItem.ws1]],
    RItem.optAlts [[BItem.lit "demo".toList, BItem.ws1]], RItem.optAlts [[BItem.lit "video".toList, BItem.ws1]],
    RItem.optAlts [[BItem.lit "for".toList, BItem.ws1]], RItem.optAlts [[BItem.lit "about".toList, BItem.ws1]]])]

/-- Python `\w` (ASCII). -/
def isWordChar (c : Char) : Bool := c.isAlpha || c.isDigit || c = '_'

/-- `re.sub(r'[^\w\s-]', ' ', s)` (line 243). -/
def cleanNonWord (s : Str) : Str :=
  s.map (fun c => if isWordChar c || pyIsSpace c || c = '-' then c else ' ')

/-- Apply a list of `re.sub(p, '', ·)` deletions in order. -/
def applyPatterns (ps : List (Bool × List RItem)) (s : Str) : Str :=
  ps.foldl (fun acc p => reSub p.fst p.snd acc) s

/-- `DemoVideoService._clean_query` (lines 202-245): lower + strip, delete
generation phrases, delete request phrases, drop punctuation, collapse
whitespace. -/
def cleanQuery (query : Str) : Str :=
  pyStrip (pyNormWs (cleanNonWord
    (applyPatterns requestPatterns
      (applyPatterns generationPatterns (pyStrip (pyLower query))))))

/-- The query terms of `_matches_query_precisely` (lines 307-320): words
longer than 2 characters, else the whole non-empty query (the third guard
at line 319 is unreachable because the second already filled `query_terms`
for any non-empty query). -/
def queryTermsOf (queryLower : Str) : List Str :=
  let terms := (pySplitWs queryLower).filter (fun t => t.length > 2)
  if terms = [] then (if queryLower ≠ [] then [queryLower] else []) else terms

/-- Metadata tags then content tags, stripped, lowered, non-empty,
first-occurrence de-duplicated (lines 322-341 / 519-535). -/
def combinedTags (metaTags content : Str) : List Str :=
  let m := if metaTags ≠ [] then
      ((pySplitOnChar ',' metaTags).filter (fun t => pyStrip t ≠ [])).map
        (fun t => pyLower (pyStrip t))
    else []
  let c := ((extractTagsFromContent content).filter (fun t => pyStrip t ≠ [])).map
    (fun t => pyLower (pyStrip t))
  dedupKeep ((m ++ c).filter (fun t => t ≠ []))

/-- The acronym-to-product table of lines 361-368. -/
def productAcronyms : List (Str × List Str) :=
  [("eve".toList, ["eve".toList, "encrypted visibility engine".toList]),
   ("aiops".toList, ["aiops".toList, "ai ops".toList, "scc".toList,
     "security cloud control".toList]),
   ("rtc".toList, ["rtc".toList, "rapid threat containment".toList]),
   ("sgt".toList, ["sgt".toList, "security group tags".toList]),
   ("mcd".toList, ["mcd".toList, "automated cloud security orchestration".toList]),
   ("snortml".toList, ["snortml".toList, "snort ml".toList, "zero day".toList])]

/-- `DemoVideoService._matches_query_precisely` (lines 299-497): the
sequence of early `return True` checks is the disjunction of the acronym
check and the four priority checks (product name, tags, filename, title);
reaching the end returns `False`. -/
def matchesQueryPrecisely (query content filename : Str) (meta : Metadata) : Bool :=
  let queryLower := pyStrip (pyLower query)
  let qts := queryTermsOf queryLower
  let allTags := combinedTags meta.tags content
  let productLower := match extractProductFromContent content filename with
    | Option.some p => pyLower p
    | Option.none => []
  let filenameLower := pyReplaceChar '-' ' ' (pyReplaceChar '_' ' ' (pyLower filename))
  let titleLower := pyLower meta.title
  -- acronym check (lines 370-383)
  (productAcronyms.any (fun av =>
    (queryLower = av.fst || av.snd.contains queryLower) &&
    av.snd.any (fun v =>
      allTags.any (fun tag => pyInStr v tag) ||
      (productLower ≠ [] && pyInStr v productLower) ||
      pyInStr v filenameLower))) ||
  -- PRIORITY 1: product name (lines 385-407)
  (productLower ≠ [] &&
    (queryLower = productLower || pyInStr queryLower productLower ||
     pyInStr productLower queryLower ||
     (qts.length = 1 &&
       ((pySplitWs productLower).contains (qts.headD []) ||
        (pySplitWs productLower).any (fun w => pyInStr (qts.headD []) w))) ||
     qts.all (fun t => pyInStr t productLower))) ||
  -- PRIORITY 2: tags (lines 410-452)
  (allTags ≠ [] &&
    (allTags.any (fun tag => queryLower = tag || pyInStr queryLower tag ||
      pyInStr tag queryLower) ||
     (if qts.length = 1 then
        allTags.any (fun tag => pyInStr (qts.headD []) tag ||
          (pySplitWs tag).contains (qts.headD []) ||
          (pySplitWs tag).any (fun w => pyInStr (qts.headD []) w))
      else
        (qts.filter (fun t => allTags.any (fun tag => pyInStr t tag))).length ≥ qts.length))) ||
  -- PRIORITY 3: filename (lines 454-480)
  (qts ≠ [] &&
    (let fwords := pySplitWs (pyReplaceChar '-' ' ' (pyReplaceChar '_' ' ' filenameLower))
     if qts.length = 1 then
       fwords.contains (qts.headD []) ||
       fwords.any (fun w => pyInStr (qts.headD []) w) ||
       pyInStr (qts.headD []) (pyReplaceChar '-' ' ' (pyReplaceChar '_' ' ' filenameLower))
     else
       (qts.filter (fun t => fwords.any (fun w => pyInStr t w) ||
         pyInStr t (pyReplaceChar '-' ' ' (pyReplaceChar '_' ' ' filenameLower)))).length
         = qts.length)) ||
  -- PRIORITY 4: title (lines 482-493)
  (qts ≠ [] && titleLower ≠ [] &&
    (let twords := pySplitWs titleLower
     if qts.length = 1 then
       twords.contains (qts.headD []) || twords.any (fun w => pyInStr (qts.headD []) w)
     else
       (qts.filter (fun t => twords.any (fun w => pyInStr t w))).length = qts.length))

/-- `DemoVideoService._calculate_relevance_score` (lines 499-586): the
weighted sum tag×0.4 + product×0.3 + filename×0.2 + normalized-rag×0.1,
capped at 1.0. -/
def calculateRelevanceScore (query content filename : Str) (meta : Metadata)
    (ragScore : Frac) : Frac :=
  let queryLower := pyStrip (pyLower query)
  let qts0 := (pySplitWs queryLower).filter (fun t => t.length > 2)
  let qts := if qts0 = [] then [queryLower] else qts0
  let allTags := combinedTags meta.tags content
  let productLower := match extractProductFromContent content filename with
    | Option.some p => pyLower p
    | Option.none => []
  let filenameLower := pyReplaceChar '-' ' ' (pyReplaceChar '_' ' ' (pyLower filename))
  let tagScore :=
    if allTags ≠ [] then
      let m := (qts.filter (fun t => allTags.any (fun tag =>
        pyInStr t tag || pyInStr tag t || (pySplitWs tag).contains t))).length
      if m > 0 then (fracRatio m qts.length).mul (fq 4 10) else Frac.ofInt 0
    else Frac.ofInt 0
  let productScore :=
    if productLower ≠ [] then
      let m := (qts.filter (fun t => pyInStr t productLower ||
        (pySplitWs productLower).any (fun w => pyInStr t w))).length
      if m > 0 then (fracRatio m qts.length).mul (fq 3 10) else Frac.ofInt 0
    else Frac.ofInt 0
  let filenameScore :=
    let m := (qts.filter (fun t => (pySplitWs filenameLower).any (fun w => pyInStr t w) ||
      pyInStr t filenameLower)).length
    if m > 0 then (fracRatio m qts.length).mul (fq 2 10) else Frac.ofInt 0
  let normalizedRag :=
    if Frac.lt ragScore (Frac.ofInt 0) then
      Frac.maxF (Frac.ofInt 0) (Frac.minF (Frac.ofInt 1) ((ragScore.add (Frac.ofInt 1)).mul (fq 1 2)))
    else Frac.minF (Frac.ofInt 1) ragScore
  Frac.minF (((tagScore.add productScore).add filenameScore).add (normalizedRag.mul (fq 1 10)))
    (Frac.ofInt 1)

/-! ### `DemoVideoService.find_demo_videos` (lines 588-871) -/

/-- One entry of the returned `videos` list.  The precise branch does not
set `is_suggestion`; a missing key reads as false (`x.get("is_suggestion")`
would be `None`), so it is modelled as `is_suggestion = false`. -/
structure VideoInfo where
  video_id : Str
  url : Str
  embed_url : Str
  title : Str
  description : Str
  source_document : Str
  relevance_score : Frac
  is_suggestion : Bool
deriving DecidableEq

/-- One entry of the `suggestions` list (lines 688-694). -/
structure Suggestion where
  result : SearchResult
  links : List LinkInfo
  relevance_score : Frac
  rag_score : Frac
  filename : Str
deriving DecidableEq

/-- The mutable state of the main loop: `videos`, `suggestions`,
`seen_video_ids` (a Python set modelled as its insertion list). -/
structure FindState where
  videos : List VideoInfo
  suggestions : List Suggestion
  seen : List Str
deriving DecidableEq

/-- The title fallback chain of lines 711-717 / 800-805 (`if not title`
treats both a missing and an empty title as absent). -/
def videoTitle (content filename url : Str) : Str :=
  let t1 : Str := match extractProductFromContent content filename with
    | Option.some t => t
    | Option.none => []
  let t2 : Str := if t1 = [] then
      (match extractVideoTitle content url with
        | Option.some t => t
        | Option.none => [])
    else t1
  if t2 = [] then
    pyReplaceChar '_' ' ' (match rfindDot filename with
      | Option.some i => filename.take i
      | Option.none => filename)
  else t2

/-- The description snippet of lines 719-729 / 807-817 (`url_pos > 0`
strictly, so a link at position 0 or absent in its normalized form falls
back to the content head). -/
def videoDescription (content url : Str) : Str :=
  let headDescr := pyStrip (content.take 300)
  let d := match pyFindCI url content with
    | Option.some pos =>
      if pos > 0 then
        pyStrip ((content.drop (pos - 200)).take ((min content.length (pos + 200)) - (pos - 200)))
      else headDescr
    | Option.none => headDescr
  if d.length > 300 then d.take 300 ++ "...".toList else d

/-- The `video_info` dict built in the precise branch (lines 731-739): the
`relevance_score` field carries the chunk's raw retrieval score and the
record has no `is_suggestion` key (read back as false). -/
def preciseVideo (content filename : Str) (ragScore : Frac) (link : LinkInfo) : VideoInfo :=
  ⟨link.video_id, link.url, link.embed_url, videoTitle content filename link.url,
    videoDescription content link.url, filename, ragScore, false⟩

/-- The inner link loop of the precise branch (lines 702-746): skip ids
already seen, append a video per link, stop once `limit` videos exist. -/
def addPreciseVideos (limit : ℕ) (content filename : Str) (ragScore : Frac) :
    List LinkInfo → List VideoInfo → List Str → List VideoInfo × List Str
  | [], videos, seen => (videos, seen)
  | link :: rest, videos, seen =>
    if seen.contains link.video_id then
      addPreciseVideos limit content filename ragScore rest videos seen
    else
      let videos2 := videos ++ [preciseVideo content filename ragScore link]
      if videos2.length ≥ limit then (videos2, seen ++ [link.video_id])
      else addPreciseVideos limit content filename ragScore rest videos2
        (seen ++ [link.video_id])

/-- One iteration of the main loop (lines 647-750) on one retrieval result.
The returned flag says whether the end-of-iteration budget check is reached
(it is skipped by `continue` for link-less and non-precise chunks). -/
def stepChunk (queryForMatching : Str) (limit : ℕ) (st : FindState)
    (r : SearchResult) : FindState × Bool :=
  let links := extractYoutubeLinks r.content
  if links.isEmpty then (st, false)
  else if matchesQueryPrecisely queryForMatching r.content r.metadata.filename r.metadata then
    let vs := addPreciseVideos limit r.content r.metadata.filename r.score links
      st.videos st.seen
    (⟨vs.fst, st.suggestions, vs.snd⟩, true)
  else
    let rel := calculateRelevanceScore queryForMatching r.content r.metadata.filename
      r.metadata r.score
    if Frac.lt (fq 2 10) rel then
      (⟨st.videos, st.suggestions ++ [⟨r, links, rel, r.score, r.metadata.filename⟩],
        st.seen⟩, false)
    else (st, false)

/-- The main loop over the score-sorted results (lines 647-750). -/
def processChunks (queryForMatching : Str) (limit : ℕ) :
    List SearchResult → FindState → FindState
  | [], st => st
  | r :: rest, st =>
    let sb := stepChunk queryForMatching limit st r
    if sb.snd ∧ sb.fst.videos.length ≥ limit then sb.fst
    else processChunks queryForMatching limit rest sb.fst

/-- `sorted(search_results, key=lambda x: x.get("score", 0), reverse=True)`
(line 638): stable descending sort by retrieval score. -/
def resGE (a b : SearchResult) : Prop := Frac.le b.score a.score

instance resGE.dec : DecidableRel resGE := fun a b => by
  unfold resGE; infer_instance

instance resGE.total : IsTotal SearchResult resGE :=
  ⟨fun a b => Frac.le_total_frac b.score a.score⟩

instance resGE.trans : IsTrans SearchResult resGE :=
  ⟨fun _ _ _ h1 h2 => Frac.le_trans_frac h2 h1⟩

/-- Stable descending sort of the retrieval results by score. -/
def sortResultsDesc (l : List SearchResult) : List SearchResult :=
  List.insertionSort resGE l

/-- `suggestions.sort(key=lambda x: (rel, rag), reverse=True)` (lines
760/776): descending lexicographic order on float values. -/
def sugGE (a b : Suggestion) : Prop :=
  Frac.lt b.relevance_score a.relevance_score ∨
    (Frac.le a.relevance_score b.relevance_score ∧
     Frac.le b.relevance_score a.relevance_score ∧
     Frac.le b.rag_score a.rag_score)

instance sugGE.dec : DecidableRel sugGE := fun a b => by
  unfold sugGE; infer_instance

instance sugGE.total : IsTotal Suggestion sugGE := by
  refine ⟨fun a b => ?_⟩
  unfold sugGE
  simp only [Frac.lt_iff, Frac.le_iff]
  rcases lt_trichotomy a.relevance_score.toRat b.relevance_score.toRat with h | h | h
  · exact Or.inr (Or.inl h)
  · rcases le_total a.rag_score.toRat b.rag_score.toRat with hg | hg
    · exact Or.inr (Or.inr ⟨h.ge, h.le, hg⟩)
    · exact Or.inl (Or.inr ⟨h.le, h.ge, hg⟩)
  · exact Or.inl (Or.inl h)

instance sugGE.trans : IsTrans Suggestion sugGE := by
  refine ⟨fun a b c h1 h2 => ?_⟩
  unfold sugGE at h1 h2 ⊢
  simp only [Frac.lt_iff, Frac.le_iff] at h1 h2 ⊢
  rcases h1 with h1 | ⟨h1a, h1b, h1c⟩ <;> rcases h2 with h2 | ⟨h2a, h2b, h2c⟩
  · exact Or.inl (h2.trans h1)
  · exact Or.inl (lt_of_le_of_lt h2b h1)
  · exact Or.inl (lt_of_lt_of_le h2 h1b)
  · exact Or.inr ⟨h1a.trans h2a, h2b.trans h1b, h2c.trans h1c⟩

/-- Stable descending sort of the suggestions by (relevance, rag score). -/
def sortSugDesc (l : List Suggestion) : List Suggestion :=
  List.insertionSort sugGE l

/-- The post-hoc filename boost of lines 762-773: a suggestion whose
(lowercased) filename contains a cleaned-query term and whose relevance is
below 0.2 is floored at `max(0.2, rel + 0.1)`.  (Every stored suggestion
already has relevance > 0.2, so the inner condition never fires.) -/
def boostSuggestions (cqTerms : List Str) (sugs : List Suggestion) : List Suggestion :=
  sugs.map (fun sug =>
    if cqTerms.any (fun t => pyInStr t (pyLower sug.filename)) then
      if Frac.lt sug.relevance_score (fq 2 10) then
        { sug with relevance_score := Frac.maxF (fq 2 10) (sug.relevance_score.add (fq 1 10)) }
      else sug
    else sug)

/-- The `video_info` dict built in the suggestion branch (lines 819-828):
the `relevance_score` field carries the (possibly boosted) weighted
relevance, and `is_suggestion` is set to true. -/
def suggestionVideo (sug : Suggestion) (link : LinkInfo) : VideoInfo :=
  ⟨link.video_id, link.url, link.embed_url,
    videoTitle sug.result.content sug.result.metadata.filename link.url,
    videoDescription sug.result.content link.url,
    sug.result.metadata.filename, sug.relevance_score, true⟩

/-- The inner link loop of the suggestion branch (lines 793-834). -/
def addSuggestionVideos (limit : ℕ) (sug : Suggestion) :
    List LinkInfo → List VideoInfo → List Str → List VideoInfo × List Str
  | [], videos, seen => (videos, seen)
  | link :: rest, videos, seen =>
    if seen.contains link.video_id then
      addSuggestionVideos limit sug rest videos seen
    else
      let videos2 := videos ++ [suggestionVideo sug link]
      if videos2.length ≥ limit then (videos2, seen ++ [link.video_id])
      else addSuggestionVideos limit sug rest videos2 (seen ++ [link.video_id])

/-- The outer loop of the suggestion branch (lines 783-837). -/
def processSuggestions (limit : ℕ) :
    List Suggestion → List VideoInfo → List Str → List VideoInfo
  | [], videos, _ => videos
  | sug :: rest, videos, seen =>
    let vs := addSuggestionVideos limit sug sug.links videos seen
    if vs.fst.length ≥ limit then vs.fst
    else processSuggestions limit rest vs.fst vs.snd

/-- `videos.sort(key=lambda x: x.get("relevance_score", 0), reverse=True)`
(lines 840/861). -/
def vidGE (a b : VideoInfo) : Prop := Frac.le b.relevance_score a.relevance_score

instance vidGE.dec : DecidableRel vidGE := fun a b => by
  unfold vidGE; infer_instance

instance vidGE.total : IsTotal VideoInfo vidGE :=
  ⟨fun a b => Frac.le_total_frac b.relevance_score a.relevance_score⟩

instance vidGE.trans : IsTrans VideoInfo vidGE :=
  ⟨fun _ _ _ h1 h2 => Frac.le_trans_frac h2 h1⟩

/-- Stable descending sort of the videos by relevance score. -/
def sortVideosDesc (l : List VideoInfo) : List VideoInfo :=
  List.insertionSort vidGE l

/-- The response dict of `find_demo_videos`.  The top-level
`is_suggestion` key exists only in the suggestion-branch response; it is
modelled as `false` elsewhere. -/
structure FindResponse where
  status : Str
  videos : List VideoInfo
  message : Str
  is_suggestion : Bool
deriving DecidableEq

/-- `DemoVideoService.find_demo_videos` from the retrieval results returned
by `rag_service.search(query=cleaned or raw, limit=limit*2)` (line 628) to
the response: clean the query, sort results by score descending, collect
precise matches and suggestion candidates, deliver precise matches, else
boosted/sorted suggestions, else a not-found message. -/
def findDemoVideosCore (query : Str) (limit : ℕ)
    (searchResults : List SearchResult) : FindResponse :=
  let cleanedQuery := cleanQuery query
  if searchResults.isEmpty then
    ⟨"success".toList, [],
      "No documents found matching '".toList ++
        (if cleanedQuery ≠ [] then cleanedQuery else query) ++
        "'. Try different keywords.".toList, false⟩
  else
    let qm := if cleanedQuery ≠ [] then cleanedQuery else query
    let st := processChunks qm limit (sortResultsDesc searchResults) ⟨[], [], []⟩
    if st.videos.isEmpty ∧ ¬ st.suggestions.isEmpty then
      let cql := if cleanedQuery ≠ [] then pyLower cleanedQuery else pyLower query
      let cqt0 := (pySplitWs cql).filter (fun t => t.length > 2)
      let cqt := if cqt0 = [] then [cql] else cqt0
      let s2 := sortSugDesc (boostSuggestions cqt (sortSugDesc st.suggestions))
      let top := s2.take (min limit (max 3 s2.length))
      let videos := sortVideosDesc (processSuggestions limit top [] st.seen)
      ⟨"success".toList, videos,
        "Perhaps you are referring to these related demo videos:".toList, true⟩
    else if st.videos.isEmpty then
      ⟨"success".toList, [],
        "No demo videos found for '".toList ++ qm ++ "'.".toList, false⟩
    else
      ⟨"success".toList, sortVideosDesc st.videos,
        "Found ".toList ++ (toString st.videos.length).toList ++
          " demo video(s) matching '".toList ++ query ++ "'".toList, false⟩

/-! ### Claim C10: link-less chunks are skipped before classification -/

/-- C10: a retrieved chunk whose content yields no YouTube link is skipped by
the `continue` of line 660 before any classification: the loop step leaves
the state unchanged (no video, no suggestion, no seen id, and the
end-of-iteration budget check is not reached), and the whole loop over a
result list containing such a chunk computes the same state as the loop over
the list with that chunk removed — so a link-less document contributes no
entries and suppresses no suggestions from other documents. -/
theorem C10_theorem (qm : Str) (limit : ℕ) (l₁ l₂ : List SearchResult)
    (r : SearchResult) (st : FindState)
    (h : extractYoutubeLinks r.content = []) :
    stepChunk qm limit st r = (st, false) ∧
    processChunks qm limit (l₁ ++ r :: l₂) st = processChunks qm limit (l₁ ++ l₂) st := by
  have hstep : ∀ s : FindState, stepChunk qm limit s r = (s, false) := by
    intro s
    unfold stepChunk
    rw [h]
    rfl
  refine ⟨hstep st, ?_⟩
  induction l₁ generalizing st with
  | nil =>
    show processChunks qm limit (r :: l₂) st = processChunks qm limit l₂ st
    rw [processChunks, hstep st]
    simp
  | cons a l ih =>
    show processChunks qm limit (a :: (l ++ r :: l₂)) st =
      processChunks qm limit (a :: (l ++ l₂)) st
    rw [processChunks, processChunks]
    split
    · rfl
    · exact ih _

/-- A concrete chunk with no video link, for the C10 witness. -/
def c10r : SearchResult :=
  ⟨"Plain overview text with no links at all.".toList, fq 3 10, fq 3 10,
    ⟨Option.some 7, "notes.txt".toList, [], [], true, [], Option.none⟩⟩

/-- A concrete chunk carrying one video link, for the C10 witness. -/
def c10a : SearchResult :=
  ⟨"See https://youtu.be/abc123DEF45 for the demo.".toList, fq 1 10, fq 1 10,
    ⟨Option.some 8, "demo.txt".toList, [], [], true, [], Option.none⟩⟩

/-- C10 witness: at the concrete link-less chunk `c10r`, the loop step is the
identity (no budget check) and the loop over `[c10a, c10r]` equals the loop
over `[c10a]` alone. -/
theorem C10_witness :
    extractYoutubeLinks c10r.content = [] ∧
    (stepChunk "demo".toList 2 ⟨[], [], []⟩ c10r = (⟨[], [], []⟩, false) ∧
     processChunks "demo".toList 2 ([c10a] ++ c10r :: []) ⟨[], [], []⟩ =
       processChunks "demo".toList 2 ([c10a] ++ []) ⟨[], [], []⟩) :=
  ⟨by decide, C10_theorem "demo".toList 2 [c10a] [] c10r ⟨[], [], []⟩ (by decide)⟩

/-! ### Phase-1 loop invariants shared by claims C2 and C9 -/

/-- Through the precise link loop, videos and seen ids grow in lockstep,
videos never shrink, and every appended video is a non-suggestion carrying
the chunk's retrieval score. -/
theorem addPreciseVideos_facts (limit : ℕ) (content filename : Str) (rag : Frac)
    (links : List LinkInfo) :
    ∀ (videos : List VideoInfo) (seen : List Str), videos.length = seen.length →
    ((addPreciseVideos limit content filename rag links videos seen).1.length =
       (addPreciseVideos limit content filename rag links videos seen).2.length ∧
     videos.length ≤ (addPreciseVideos limit content filename rag links videos seen).1.length) ∧
    ∀ v ∈ (addPreciseVideos limit content filename rag links videos seen).1,
      v ∈ videos ∨ (v.is_suggestion = false ∧ v.relevance_score = rag) := by
  induction links with
  | nil =>
    intro videos seen h
    exact ⟨⟨h, le_refl _⟩, fun v hv => Or.inl hv⟩
  | cons link rest ih =>
    intro videos seen h
    simp only [addPreciseVideos]
    by_cases hc : seen.contains link.video_id
    · rw [if_pos hc]
      exact ih videos seen h
    · rw [if_neg hc]
      have h2 : (videos ++ [preciseVideo content filename rag link]).length =
          (seen ++ [link.video_id]).length := by
        simp [h]
      by_cases hl : (videos ++ [preciseVideo content filename rag link]).length ≥ limit
      · rw [if_pos hl]
        refine ⟨⟨h2, by simp⟩, ?_⟩
        intro v hv
        rcases List.mem_append.mp hv with hin | hone
        · exact Or.inl hin
        · rcases List.mem_singleton.mp hone with rfl
          exact Or.inr ⟨rfl, rfl⟩
      · rw [if_neg hl]
        have hrec := ih (videos ++ [preciseVideo content filename rag link])
          (seen ++ [link.video_id]) h2
        refine ⟨⟨hrec.1.1, le_trans (by simp) hrec.1.2⟩, ?_⟩
        intro v hv
        rcases hrec.2 v hv with hin | hp
        · rcases List.mem_append.mp hin with hin2 | hone
          · exact Or.inl hin2
          · rcases List.mem_singleton.mp hone with rfl
            exact Or.inr ⟨rfl, rfl⟩
        · exact Or.inr hp

/-- With at least one link and the lockstep invariant, the precise link loop
leaves at least one video (the first link is either appended or was already
seen, in which case a video for it had been appended earlier). -/
theorem addPreciseVideos_ne (limit : ℕ) (content filename : Str) (rag : Frac)
    (links : List LinkInfo) (videos : List VideoInfo) (seen : List Str)
    (hls : links ≠ []) (h : videos.length = seen.length) :
    (addPreciseVideos limit content filename rag links videos seen).1 ≠ [] := by
  match links, hls with
  | link :: rest, _ =>
    simp only [addPreciseVideos]
    by_cases hc : seen.contains link.video_id
    · rw [if_pos hc]
      have hmem : link.video_id ∈ seen := List.elem_iff.mp hc
      have hsne : seen ≠ [] := by
        intro hnil
        rw [hnil] at hmem
        exact (List.not_mem_nil _) hmem
      have hv : 0 < videos.length := by
        rw [h]
        exact List.length_pos.mpr hsne
      have hle := (addPreciseVideos_facts limit content filename rag rest videos seen h).1.2
      exact List.length_pos.mp (lt_of_lt_of_le hv hle)
    · rw [if_neg hc]
      have h2 : (videos ++ [preciseVideo content filename rag link]).length =
          (seen ++ [link.video_id]).length := by
        simp [h]
      by_cases hl : (videos ++ [preciseVideo content filename rag link]).length ≥ limit
      · rw [if_pos hl]
        simp
      · rw [if_neg hl]
        have hle := (addPreciseVideos_facts limit content filename rag rest
          (videos ++ [preciseVideo content filename rag link]) (seen ++ [link.video_id]) h2).1.2
        have hv : 0 < (videos ++ [preciseVideo content filename rag link]).length := by
          simp
        exact List.length_pos.mp (lt_of_lt_of_le hv hle)

/-- One loop iteration preserves the lockstep invariant, never removes a
video, appends only precise non-suggestion videos carrying the chunk's
retrieval score, reaches the budget check only with a non-empty video list,
and a precise chunk with links always leaves a non-empty video list. -/
theorem stepChunk_facts (qm : Str) (limit : ℕ) (st : FindState) (r : SearchResult)
    (h : st.videos.length = st.seen.length) :
    ((stepChunk qm limit st r).1.videos.length = (stepChunk qm limit st r).1.seen.length ∧
     st.videos.length ≤ (stepChunk qm limit st r).1.videos.length) ∧
    (∀ v ∈ (stepChunk qm limit st r).1.videos,
      v ∈ st.videos ∨ (v.is_suggestion = false ∧ v.relevance_score = r.score ∧
        matchesQueryPrecisely qm r.content r.metadata.filename r.metadata = true)) ∧
    ((stepChunk qm limit st r).2 = true → (stepChunk qm limit st r).1.videos ≠ []) ∧
    (extractYoutubeLinks r.content ≠ [] →
      matchesQueryPrecisely qm r.content r.metadata.filename r.metadata = true →
      (stepChunk qm limit st r).1.videos ≠ []) := by
  simp only [stepChunk]
  by_cases hE : (extractYoutubeLinks r.content).isEmpty
  · rw [if_pos hE]
    have hnil : extractYoutubeLinks r.content = [] := by
      rwa [List.isEmpty_iff] at hE
    exact ⟨⟨h, le_refl _⟩, fun v hv => Or.inl hv, by simp,
      fun hne _ => absurd hnil hne⟩
  · rw [if_neg hE]
    have hne : extractYoutubeLinks r.content ≠ [] := by
      intro hnil
      rw [hnil] at hE
      exact hE rfl
    by_cases hp : matchesQueryPrecisely qm r.content r.metadata.filename r.metadata
    · rw [if_pos hp]
      have hfacts := addPreciseVideos_facts limit r.content r.metadata.filename r.score
        (extractYoutubeLinks r.content) st.videos st.seen h
      have hnev := addPreciseVideos_ne limit r.content r.metadata.filename r.score
        (extractYoutubeLinks r.content) st.videos st.seen hne h
      refine ⟨⟨hfacts.1.1, hfacts.1.2⟩, ?_, fun _ => hnev, fun _ _ => hnev⟩
      intro v hv
      rcases hfacts.2 v hv with hin | hprop
      · exact Or.inl hin
      · exact Or.inr ⟨hprop.1, hprop.2, hp⟩
    · rw [if_neg hp]
      by_cases hrel : Frac.lt (fq 2 10)
        (calculateRelevanceScore qm r.content r.metadata.filename r.metadata r.score)
      · rw [if_pos hrel]
        exact ⟨⟨h, le_refl _⟩, fun v hv => Or.inl hv, by simp,
          fun _ hprec => absurd hprec (by simpa using hp)⟩
      · rw [if_neg hrel]
        exact ⟨⟨h, le_refl _⟩, fun v hv => Or.inl hv, by simp,
          fun _ hprec => absurd hprec (by simpa using hp)⟩

/-- The whole phase-1 loop preserves the lockstep invariant, never shrinks
the video list, only ever appends non-suggestion videos whose
`relevance_score` is the retrieval score of some precise-matching chunk of
the iterated list, and leaves at least one video whenever some iterated
chunk has links and matches precisely. -/
theorem processChunks_facts (qm : Str) (limit : ℕ) (l : List SearchResult) :
    ∀ (st : FindState), st.videos.length = st.seen.length →
    ((processChunks qm limit l st).videos.length =
       (processChunks qm limit l st).seen.length ∧
     st.videos.length ≤ (processChunks qm limit l st).videos.length) ∧
    (∀ v ∈ (processChunks qm limit l st).videos,
      v ∈ st.videos ∨ (v.is_suggestion = false ∧ ∃ r ∈ l, v.relevance_score = r.score ∧
        matchesQueryPrecisely qm r.content r.metadata.filename r.metadata = true)) ∧
    ((∃ r ∈ l, extractYoutubeLinks r.content ≠ [] ∧
        matchesQueryPrecisely qm r.content r.metadata.filename r.metadata = true) →
      (processChunks qm limit l st).videos ≠ []) := by
  induction l with
  | nil =>
    intro st h
    refine ⟨⟨h, le_refl _⟩, fun v hv => Or.inl hv, ?_⟩
    rintro ⟨r, hr, -⟩
    exact absurd hr (List.not_mem_nil r)
  | cons a rest ih =>
    intro st h
    have hstep := stepChunk_facts qm limit st a h
    simp only [processChunks]
    by_cases hbr : (stepChunk qm limit st a).2 = true ∧
      (stepChunk qm limit st a).1.videos.length ≥ limit
    · rw [if_pos hbr]
      refine ⟨hstep.1, ?_, fun _ => hstep.2.2.1 hbr.1⟩
      intro v hv
      rcases hstep.2.1 v hv with hin | hp
      · exact Or.inl hin
      · exact Or.inr ⟨hp.1, a, List.mem_cons_self a rest, hp.2.1, hp.2.2⟩
    · rw [if_neg hbr]
      have hrec := ih (stepChunk qm limit st a).1 hstep.1.1
      refine ⟨⟨hrec.1.1, le_trans hstep.1.2 hrec.1.2⟩, ?_, ?_⟩
      · intro v hv
        rcases hrec.2.1 v hv with hin | hp
        · rcases hstep.2.1 v hin with hin2 | hp2
          · exact Or.inl hin2
          · exact Or.inr ⟨hp2.1, a, List.mem_cons_self a rest, hp2.2.1, hp2.2.2⟩
        · obtain ⟨hsug, r, hr, hrest⟩ := hp
          exact Or.inr ⟨hsug, r, List.mem_cons_of_mem a hr, hrest⟩
      · rintro ⟨r, hr, hlinks, hprec⟩
        rcases List.mem_cons.mp hr with rfl | hr2
        · have hne := hstep.2.2.2 hlinks hprec
          exact List.length_pos.mp
            (lt_of_lt_of_le (List.length_pos.mpr hne) hrec.1.2)
        · exact hrec.2.2 ⟨r, hr2, hlinks, hprec⟩

/-- Every video appended by the suggestion link loop is marked
`is_suggestion = true`. -/
theorem addSuggestionVideos_mem (limit : ℕ) (sug : Suggestion) (links : List LinkInfo) :
    ∀ (videos : List VideoInfo) (seen : List Str),
    ∀ v ∈ (addSuggestionVideos limit sug links videos seen).1,
      v ∈ videos ∨ v.is_suggestion = true := by
  induction links with
  | nil =>
    intro videos seen v hv
    exact Or.inl hv
  | cons link rest ih =>
    intro videos seen v hv
    simp only [addSuggestionVideos] at hv
    by_cases hc : seen.contains link.video_id
    · rw [if_pos hc] at hv
      exact ih videos seen v hv
    · rw [if_neg hc] at hv
      by_cases hl : (videos ++ [suggestionVideo sug link]).length ≥ limit
      · rw [if_pos hl] at hv
        rcases List.mem_append.mp hv with hin | hone
        · exact Or.inl hin
        · rcases List.mem_singleton.mp hone with rfl
          exact Or.inr rfl
      · rw [if_neg hl] at hv
        rcases ih (videos ++ [suggestionVideo sug link]) (seen ++ [link.video_id]) v hv with
          hin | hs
        · rcases List.mem_append.mp hin with hin2 | hone
          · exact Or.inl hin2
          · rcases List.mem_singleton.mp hone with rfl
            exact Or.inr rfl
        · exact Or.inr hs

/-- Every video produced by the suggestion phase, beyond those already
present, is marked `is_suggestion = true`. -/
theorem processSuggestions_mem (limit : ℕ) (sugs : List Suggestion) :
    ∀ (videos : List VideoInfo) (seen : List Str),
    ∀ v ∈ processSuggestions limit sugs videos seen,
      v ∈ videos ∨ v.is_suggestion = true := by
  induction sugs with
  | nil =>
    intro videos seen v hv
    exact Or.inl hv
  | cons sug rest ih =>
    intro videos seen v hv
    simp only [processSuggestions] at hv
    by_cases hl : (addSuggestionVideos limit sug sug.links videos seen).1.length ≥ limit
    · rw [if_pos hl] at hv
      exact addSuggestionVideos_mem limit sug sug.links videos seen v hv
    · rw [if_neg hl] at hv
      rcases ih (addSuggestionVideos limit sug sug.links videos seen).1
        (addSuggestionVideos limit sug sug.links videos seen).2 v hv with hin | hs
      · exact addSuggestionVideos_mem limit sug sug.links videos seen v hin
      · exact Or.inr hs

/-! ### Claim C2: precise matches and suggestions never mix -/

/-- C2: if some retrieved chunk both embeds a YouTube link and matches the
(cleaned) query precisely, then the phase-1 loop ends with at least one
video, so the suggestion branch (guarded by `not videos`) is skipped: the
response carries no top-level `is_suggestion` flag and every returned entry
is a precise match with `is_suggestion = false`.  Suggestions are delivered
only when zero precise matches produced a video. -/
theorem C2_theorem (query : Str) (limit : ℕ) (results : List SearchResult)
    (h : ∃ r ∈ results, extractYoutubeLinks r.content ≠ [] ∧
      matchesQueryPrecisely (if cleanQuery query ≠ [] then cleanQuery query else query)
        r.content r.metadata.filename r.metadata = true) :
    (findDemoVideosCore query limit results).is_suggestion = false ∧
    ∀ v ∈ (findDemoVideosCore query limit results).videos, v.is_suggestion = false := by
  obtain ⟨r0, hr0, hl0, hp0⟩ := h
  have hres_ne : results ≠ [] := by
    intro hnil
    rw [hnil] at hr0
    exact (List.not_mem_nil _) hr0
  have hfacts := processChunks_facts
    (if cleanQuery query ≠ [] then cleanQuery query else query) limit
    (sortResultsDesc results) ⟨[], [], []⟩ rfl
  have hr0s : r0 ∈ sortResultsDesc results :=
    ((List.perm_insertionSort resGE results).mem_iff).mpr hr0
  have hvne : (processChunks
      (if cleanQuery query ≠ [] then cleanQuery query else query) limit
      (sortResultsDesc results) ⟨[], [], []⟩).videos ≠ [] :=
    hfacts.2.2 ⟨r0, hr0s, hl0, hp0⟩
  simp only [findDemoVideosCore]
  rw [if_neg (fun hE => hres_ne (List.isEmpty_iff.mp hE))]
  rw [if_neg (fun hc => hvne (List.isEmpty_iff.mp (And.left hc)))]
  rw [if_neg (fun hc => hvne (List.isEmpty_iff.mp hc))]
  refine ⟨rfl, ?_⟩
  intro v hv
  have hv2 : v ∈ (processChunks
      (if cleanQuery query ≠ [] then cleanQuery query else query) limit
      (sortResultsDesc results) ⟨[], [], []⟩).videos :=
    ((List.perm_insertionSort vidGE _).mem_iff).mp hv
  rcases hfacts.2.1 v hv2 with hin | hp
  · exact absurd hin (List.not_mem_nil v)
  · exact hp.1

/-- C2 witness: the chunk `c10a` ("demo.txt", one link) matches the query
"demo" precisely, and the response for it has no suggestion entries. -/
theorem C2_witness :
    (∃ r ∈ [c10a], extractYoutubeLinks r.content ≠ [] ∧
      matchesQueryPrecisely
        (if cleanQuery "demo".toList ≠ [] then cleanQuery "demo".toList else "demo".toList)
        r.content r.metadata.filename r.metadata = true) ∧
    (findDemoVideosCore "demo".toList 2 [c10a]).is_suggestion = false ∧
    ∀ v ∈ (findDemoVideosCore "demo".toList 2 [c10a]).videos, v.is_suggestion = false :=
  ⟨by decide, C2_theorem "demo".toList 2 [c10a] (by decide)⟩

/-! ### Claim C9: iteration order and ranking direction of the matcher -/

/-- C9: `find_demo_videos` iterates the retrieval results in descending
order of their `score` field (a stable descending sort, a permutation of
the input), although the retrieval score is a distance where lower means
more similar (`search` itself ranks its output ascending by that score);
the returned video list is sorted descending by `relevance_score`; and
every returned non-suggestion video's `relevance_score` equals the raw
retrieval score of some precise-matching chunk.  So when more precise
videos exist than fit, the kept and first-listed entries are those with the
highest distance scores, i.e. the least similar chunks. -/
theorem C9_theorem (query : Str) (limit : ℕ) (results : List SearchResult) :
    List.Sorted resGE (sortResultsDesc results) ∧
    List.Perm (sortResultsDesc results) results ∧
    List.Sorted resLE (sortByScore results) ∧
    List.Sorted vidGE (findDemoVideosCore query limit results).videos ∧
    ∀ v ∈ (findDemoVideosCore query limit results).videos, v.is_suggestion = false →
      ∃ r ∈ results, v.relevance_score = r.score ∧
        matchesQueryPrecisely (if cleanQuery query ≠ [] then cleanQuery query else query)
          r.content r.metadata.filename r.metadata = true := by
  have key : List.Sorted vidGE (findDemoVideosCore query limit results).videos ∧
      ∀ v ∈ (findDemoVideosCore query limit results).videos, v.is_suggestion = false →
        ∃ r ∈ results, v.relevance_score = r.score ∧
          matchesQueryPrecisely (if cleanQuery query ≠ [] then cleanQuery query else query)
            r.content r.metadata.filename r.metadata = true := by
    by_cases hres : results.isEmpty = true
    · simp only [findDemoVideosCore, if_pos hres]
      exact ⟨List.sorted_nil, fun v hv _ => absurd hv (List.not_mem_nil v)⟩
    · simp only [findDemoVideosCore, if_neg hres]
      set qm := if cleanQuery query ≠ [] then cleanQuery query else query with hqm
      set st := processChunks qm limit (sortResultsDesc results) ⟨[], [], []⟩ with hst
      by_cases hb2 : st.videos.isEmpty = true ∧ ¬(st.suggestions.isEmpty = true)
      · rw [if_pos hb2]
        refine ⟨List.sorted_insertionSort vidGE _, ?_⟩
        intro v hv hns
        have hv2 := ((List.perm_insertionSort vidGE _).mem_iff).mp hv
        rcases processSuggestions_mem limit _ [] st.seen v hv2 with hin | hs
        · exact absurd hin (List.not_mem_nil v)
        · rw [hs] at hns
          exact absurd hns (by simp)
      · rw [if_neg hb2]
        by_cases hb3 : st.videos.isEmpty = true
        · rw [if_pos hb3]
          exact ⟨List.sorted_nil, fun v hv _ => absurd hv (List.not_mem_nil v)⟩
        · rw [if_neg hb3]
          refine ⟨List.sorted_insertionSort vidGE _, ?_⟩
          intro v hv hns
          have hfacts := processChunks_facts qm limit (sortResultsDesc results)
            ⟨[], [], []⟩ rfl
          have hv2 : v ∈ st.videos := ((List.perm_insertionSort vidGE _).mem_iff).mp hv
          rw [hst] at hv2
          rcases hfacts.2.1 v hv2 with hin | hp
          · exact absurd hin (List.not_mem_nil v)
          · obtain ⟨hsug, r, hr, hsc, hprec⟩ := hp
            exact ⟨r, ((List.perm_insertionSort resGE results).mem_iff).mp hr, hsc, hprec⟩
  exact ⟨List.sorted_insertionSort resGE results, List.perm_insertionSort resGE results,
    List.sorted_insertionSort resLE results, key.1, key.2⟩

/-! ### Claim C7: the filename floor for low-scoring suggestions is dead code -/

/-- A candidate chunk for C7: one video link, a product title that shares no
term with the query, and a filename carrying the query term "alpha". -/
def c7r : SearchResult :=
  ⟨"Overview | Gamma Product\nhttps://youtu.be/vid01".toList, fq 12 10, fq 12 10,
    ⟨Option.some 3, "alpha_notes.txt".toList, [], [], true, [], Option.none⟩⟩

/-- C7: the claimed floor (`relevance = max(0.2, rel + 0.1)` for candidates
whose cleaned-query terms appear in the filename) is unreachable: a
candidate only enters `suggestions` when its weighted relevance already
exceeds 0.2 (line 685), and the boost loop of lines 767-773 runs over
`suggestions` only, so its `relevance < 0.2` guard never holds.  Concretely:
for query "alpha beta" the chunk `c7r` has a video link, is not a precise
match, has cleaned-query term "alpha" in its filename, and its weighted
relevance is exactly 0.2 — not above the threshold — so contrary to the
spec it is dropped: the response carries no videos and no suggestions. -/
theorem C7_theorem :
    cleanQuery "alpha beta".toList = "alpha beta".toList ∧
    extractYoutubeLinks c7r.content ≠ [] ∧
    matchesQueryPrecisely "alpha beta".toList c7r.content c7r.metadata.filename
      c7r.metadata = false ∧
    (∃ t ∈ (pySplitWs "alpha beta".toList).filter (fun t => t.length > 2),
      pyInStr t (pyLower c7r.metadata.filename) = true) ∧
    ¬ Frac.lt (fq 2 10)
      (calculateRelevanceScore "alpha beta".toList c7r.content c7r.metadata.filename
        c7r.metadata c7r.score) ∧
    (findDemoVideosCore "alpha beta".toList 10 [c7r]).videos = [] ∧
    (findDemoVideosCore "alpha beta".toList 10 [c7r]).is_suggestion = false := by
  decide
